import Mathlib

/-!
Verification development for the grid-trading bot (cache-manager.js,
order-manager.js, websocket-manager.js, grid-strategy.js, config.js).

Modelling conventions:
* Prices are integers (the configuration uses pricePrecision 0 and a step
  of 50, so all ladder prices are integers); sizes are rationals.
* A JS number that may be NaN (the result of parseFloat on a missing
  event field) is modelled as an Option Int, with none standing for NaN.
  JS Map keys compare with SameValueZero, under which NaN equals NaN, so
  Option equality is exactly the key equality of the source maps.
* A JS Map is modelled as an association list in insertion order:
  set replaces the value in place when the key exists and appends
  otherwise, delete removes the key, iteration follows the list order.
* Date.now() is passed in as an explicit timestamp argument.
-/

/-- Order status as used by the cache: pending, live, filled, cancelled. -/
inductive Status where
  | pending
  | live
  | filled
  | cancelled
deriving DecidableEq, Repr

/-- Side of an order, used by CacheManager.updateOrderStatus. -/
inductive Side where
  | buy
  | sell
deriving DecidableEq, Repr

/-- A JS number that may be NaN: none models NaN (parseFloat of a missing
field), some v a real numeric value. -/
abbrev PriceVal := Option Int

/-- Entry of buyCurrentOrders: price, size, status, created-at timestamp
(cache-manager addBuyOrder stores exactly these fields). -/
structure BuyOrder where
  price : Int
  size : Rat
  status : Status
  timestamp : Nat
deriving DecidableEq, Repr

/-- Object form of a sellCurrentOrders entry (clientOid, price, size,
status, timestamp); price and size are optional because the legacy-string
upgrade path in the source builds the object without them. -/
structure SellOrder where
  clientOid : String
  price : Option Int
  size : Option Rat
  status : Status
  timestamp : Nat
deriving DecidableEq, Repr

/-- A sellCurrentOrders value is either a bare clientOid string (legacy
format, only reachable through persistence restore) or an object. -/
inductive SellEntry where
  | legacy (clientOid : String)
  | obj (o : SellOrder)
deriving DecidableEq, Repr

/-- Entry of buyFilledOrders, written by addFilledBuyOrder in
handleOrderUpdate: orderId, clientOid, fill price, executed size,
timestamp.  Price and size may be NaN for malformed events. -/
structure FilledRec where
  orderId : String
  clientOid : String
  price : PriceVal
  size : Option Rat
  timestamp : Nat
deriving DecidableEq, Repr

/-- The CacheManager state: the three maps plus the last known price. -/
structure CacheState where
  buyCurrentOrders : List (String × BuyOrder)
  sellCurrentOrders : List (PriceVal × SellEntry)
  buyFilledOrders : List (PriceVal × FilledRec)
  lastPrice : Option Int
  lastPriceTimestamp : Option Nat
deriving Repr

/-- The empty cache, as built by the CacheManager constructor. -/
def initState : CacheState :=
  { buyCurrentOrders := []
    sellCurrentOrders := []
    buyFilledOrders := []
    lastPrice := none
    lastPriceTimestamp := none }

/-- Configuration fields consumed by the modelled code (config.js). -/
structure Config where
  priceStep : Int
  maxOrders : Nat
  orderAmountUSDT : Rat
  sizePrecision : Nat
  waveSize : Nat
deriving Repr

/-- The concrete configuration of config.js (step 50, 10 orders,
50 USDT per order, size precision 6, wave size 49). -/
def config0 : Config :=
  { priceStep := 50, maxOrders := 10, orderAmountUSDT := 50
    sizePrecision := 6, waveSize := 49 }

/-! JS Map operations on association lists. -/

/-- Map.get: value of the first entry with the given key. -/
def mget {κ β : Type} [DecidableEq κ] (m : List (κ × β)) (k : κ) : Option β :=
  (m.find? (fun p => decide (p.1 = k))).map (·.2)

/-- Map.has. -/
def mhas {κ β : Type} [DecidableEq κ] (m : List (κ × β)) (k : κ) : Bool :=
  m.any (fun p => decide (p.1 = k))

/-- Map.set: replace in place when the key is present, append otherwise. -/
def mset {κ β : Type} [DecidableEq κ] (m : List (κ × β)) (k : κ) (v : β) :
    List (κ × β) :=
  if mhas m k then m.map (fun p => if p.1 = k then (k, v) else p)
  else m ++ [(k, v)]

/-- Map.delete: remove the entry with the given key. -/
def mdel {κ β : Type} [DecidableEq κ] (m : List (κ × β)) (k : κ) :
    List (κ × β) :=
  m.filter (fun p => decide (p.1 ≠ k))

/-! CacheManager methods. -/

/-- CacheManager.updatePrice. -/
def updatePrice (s : CacheState) (price : Int) (now : Nat) : CacheState :=
  { s with lastPrice := some price, lastPriceTimestamp := some now }

/-- CacheManager.addBuyOrder: unconditionally stores a pending order
under the given clientOid (overwriting any entry with the same key). -/
def addBuyOrder (s : CacheState) (clientOid : String) (price : Int)
    (size : Rat) (now : Nat) : CacheState :=
  let o : BuyOrder := { price := price, size := size, status := .pending, timestamp := now }
  { s with buyCurrentOrders := mset s.buyCurrentOrders clientOid o }

/-- CacheManager.removeBuyOrder: deletes the entry and returns it, or
returns none when absent. -/
def removeBuyOrder (s : CacheState) (clientOid : String) :
    CacheState × Option BuyOrder :=
  match mget s.buyCurrentOrders clientOid with
  | some o => ({ s with buyCurrentOrders := mdel s.buyCurrentOrders clientOid },
               some o)
  | none => (s, none)

/-- Upgrade of a legacy string sell entry as done by addSellOrder: the
object is built with clientOid, pending status and a timestamp only. -/
def sellEntryUpgrade (e : SellEntry) (now : Nat) : SellOrder :=
  match e with
  | .legacy oid => { clientOid := oid, price := none, size := none
                     status := .pending, timestamp := now }
  | .obj o => o

/-- CacheManager.addSellOrder: stores the (possibly upgraded) order
object under the price key. -/
def addSellOrder (s : CacheState) (price : PriceVal) (info : SellEntry)
    (now : Nat) : CacheState :=
  { s with sellCurrentOrders := mset s.sellCurrentOrders price (.obj (sellEntryUpgrade info now)) }

/-- CacheManager.removeSellOrder. -/
def removeSellOrder (s : CacheState) (price : PriceVal) :
    CacheState × Option SellEntry :=
  match mget s.sellCurrentOrders price with
  | some e => ({ s with sellCurrentOrders := mdel s.sellCurrentOrders price },
               some e)
  | none => (s, none)

/-- CacheManager.addFilledBuyOrder. -/
def addFilledBuyOrder (s : CacheState) (price : PriceVal) (details : FilledRec) :
    CacheState :=
  { s with buyFilledOrders := mset s.buyFilledOrders price details }

/-- CacheManager.removeFilledBuyOrder. -/
def removeFilledBuyOrder (s : CacheState) (price : PriceVal) :
    CacheState × Option FilledRec :=
  match mget s.buyFilledOrders price with
  | some d => ({ s with buyFilledOrders := mdel s.buyFilledOrders price },
               some d)
  | none => (s, none)

/-- CacheManager.canPlaceOrder: false when an order of buyCurrentOrders
already has this price, when sellCurrentOrders has the price one step
above, or when buyFilledOrders has this price. -/
def canPlaceOrder (s : CacheState) (price step : Int) : Bool :=
  if s.buyCurrentOrders.any (fun p => decide (p.2.price = price)) then false
  else if mhas s.sellCurrentOrders (some (price + step)) then false
  else if mhas s.buyFilledOrders (some price) then false
  else true

/-- Stable insertion step for an ascending sort by an integer key,
matching the stable JS Array.prototype.sort with comparator a.price minus
b.price. -/
def insertAscBy {α : Type} (key : α → Int) (a : α) : List α → List α
  | [] => [a]
  | b :: bs => if key a ≤ key b then a :: b :: bs else b :: insertAscBy key a bs

/-- Stable ascending sort by an integer key. -/
def sortAscBy {α : Type} (key : α → Int) (l : List α) : List α :=
  l.foldr (insertAscBy key) []

/-- CacheManager.getOrdersToCancel: when the buy map is larger than
maxOrders, sort all entries by ascending price and return the clientOids
of the lowest-priced excess. -/
def getOrdersToCancel (s : CacheState) (maxOrders : Nat) : List String :=
  if s.buyCurrentOrders.length ≤ maxOrders then []
  else
    let sorted := sortAscBy (fun p => p.2.price) s.buyCurrentOrders
    (sorted.take (s.buyCurrentOrders.length - maxOrders)).map (·.1)

/-- CacheManager.updateOrderStatus restricted to the buy branch: set the
status in place when the clientOid is present. -/
def updateBuyStatus (s : CacheState) (clientOid : String) (status : Status) :
    CacheState × Bool :=
  match mget s.buyCurrentOrders clientOid with
  | some o =>
    ({ s with buyCurrentOrders := mset s.buyCurrentOrders clientOid { o with status := status } },
     true)
  | none => (s, false)

/-- ClientOid carried by a sell entry (string entries are the oid). -/
def sellEntryOid (e : SellEntry) : String :=
  match e with
  | .legacy oid => oid
  | .obj o => o.clientOid

/-- Walk of sellCurrentOrders done by the sell branch of
CacheManager.updateOrderStatus: the first entry with the given clientOid
gets its status set (a legacy string is upgraded to an object whose price
is the map key). -/
def updateSellStatusList (clientOid : String) (status : Status) (now : Nat) :
    List (PriceVal × SellEntry) → List (PriceVal × SellEntry) × Bool
  | [] => ([], false)
  | (k, e) :: rest =>
    if sellEntryOid e = clientOid then
      match e with
      | .legacy oid =>
        ((k, .obj { clientOid := oid, price := k, size := none
                    status := status, timestamp := now }) :: rest, true)
      | .obj o => ((k, .obj { o with status := status }) :: rest, true)
    else
      let r := updateSellStatusList clientOid status now rest
      ((k, e) :: r.1, r.2)

/-- CacheManager.updateOrderStatus: dispatch on the side. -/
def updateOrderStatus (s : CacheState) (clientOid : String) (status : Status)
    (side : Side) (now : Nat) : CacheState × Bool :=
  match side with
  | .buy => updateBuyStatus s clientOid status
  | .sell =>
    let r := updateSellStatusList clientOid status now s.sellCurrentOrders
    ({ s with sellCurrentOrders := r.1 }, r.2)

/-- Expiry test of the buy loop in CacheManager.cleanPendingOrders. -/
def buyPendingExpired (now : Nat) (maxAge : Int) (o : BuyOrder) : Bool :=
  decide (o.status = .pending) && decide ((now : Int) - o.timestamp > maxAge)

/-- Expiry test of the sell loop in CacheManager.cleanPendingOrders
(string-typed legacy entries are skipped). -/
def sellPendingExpired (now : Nat) (maxAge : Int) (e : SellEntry) : Bool :=
  match e with
  | .legacy _ => false
  | .obj o => decide (o.status = .pending) && decide ((now : Int) - o.timestamp > maxAge)

/-- CacheManager.cleanPendingOrders: delete every pending entry older
than maxAge from both maps and return the number removed. -/
def cleanPendingOrders (s : CacheState) (now : Nat) (maxAge : Int) :
    CacheState × Nat :=
  let buysKept := s.buyCurrentOrders.filter
    (fun p => ! buyPendingExpired now maxAge p.2)
  let sellsKept := s.sellCurrentOrders.filter
    (fun p => ! sellPendingExpired now maxAge p.2)
  let removed := s.buyCurrentOrders.countP (fun p => buyPendingExpired now maxAge p.2)
      + s.sellCurrentOrders.countP (fun p => sellPendingExpired now maxAge p.2)
  ({ s with buyCurrentOrders := buysKept, sellCurrentOrders := sellsKept }, removed)

/-- View of an active buy order returned by
CacheManager.getActiveBuyOrdersSortedByDistance. -/
structure ActiveBuyView where
  clientOid : String
  price : Int
  size : Rat
  status : Status
  timestamp : Nat
deriving DecidableEq, Repr

/-- Stable insertion step for a descending sort by a natural key,
matching the stable JS sort with comparator distanceB minus distanceA. -/
def insertDescBy {α : Type} (key : α → Nat) (a : α) : List α → List α
  | [] => [a]
  | b :: bs => if key b ≤ key a then a :: b :: bs else b :: insertDescBy key a bs

/-- Stable descending sort by a natural key. -/
def sortDescBy {α : Type} (key : α → Nat) (l : List α) : List α :=
  l.foldr (insertDescBy key) []

/-- Distance of a view from the target price, the sort key used by
getActiveBuyOrdersSortedByDistance. -/
def viewDistance (target : Int) (v : ActiveBuyView) : Nat :=
  (v.price - target).natAbs

/-- CacheManager.getActiveBuyOrdersSortedByDistance: live buy orders,
farthest from the target price first. -/
def getActiveBuyOrdersSortedByDistance (s : CacheState) (target : Int) :
    List ActiveBuyView :=
  sortDescBy (viewDistance target)
    ((s.buyCurrentOrders.filter (fun p => decide (p.2.status = .live))).map
      (fun p => { clientOid := p.1, price := p.2.price, size := p.2.size
                  status := p.2.status, timestamp := p.2.timestamp }))


/-! OrderManager methods. -/

/-- Rounding to a fixed number of decimals, modelling Number.toFixed
followed by parseFloat (ties and binary float artefacts abstracted to
exact half-up rounding of the rational value). -/
def roundToPrec (prec : Nat) (q : Rat) : Rat :=
  (round (q * (10 : Rat) ^ prec) : Int) / (10 : Rat) ^ prec

/-- OrderManager.calculateOrderSize: orderAmountUSDT divided by the
price, rounded to sizePrecision decimals. -/
def calculateOrderSize (cfg : Config) (price : Int) : Rat :=
  roundToPrec cfg.sizePrecision (cfg.orderAmountUSDT / (price : Rat))

/-- OrderManager.placeBuyOrder: rejected (returns none, state unchanged)
when canPlaceOrder fails; otherwise the pending order is recorded in the
cache before the placement command is sent.  The generated clientOid is
passed in as a parameter. -/
def placeBuyOrder (cfg : Config) (s : CacheState) (price : Int)
    (clientOid : String) (now : Nat) : CacheState × Option String :=
  if canPlaceOrder s price cfg.priceStep then
    (addBuyOrder s clientOid price (calculateOrderSize cfg price) now, some clientOid)
  else (s, none)

/-- OrderManager.placeSellOrder: uses the supplied size when given
(mirroring an exact filled buy quantity) and the computed size otherwise;
records the pending sell in the cache keyed by its price.  The returned
triple is the placement command sent over the socket. -/
def placeSellOrder (cfg : Config) (s : CacheState) (price : Int)
    (size : Option Rat) (clientOid : String) (now : Nat) :
    CacheState × (String × Int × Rat) :=
  let orderSize := size.getD (calculateOrderSize cfg price)
  let entry : SellOrder := { clientOid := clientOid, price := some price
                             size := some orderSize, status := .pending, timestamp := now }
  (addSellOrder s (some price) (.obj entry) now, (clientOid, price, orderSize))

/-- Desired grid of OrderManager.enforceMaxOrders: maxOrders levels
spaced priceStep below the base price. -/
def desiredPrices (cfg : Config) (basePrice : Int) : List Int :=
  (List.range cfg.maxOrders).map (fun (i : Nat) => basePrice - (i : Int) * cfg.priceStep)

/-- OrderManager.enforceMaxOrders (current order-manager.js): with no
known price (or price 0, falsy in JS) nothing is cancelled; otherwise
every live or pending buy order whose price is not one of the maxOrders
grid levels below the base price is cancelled.  The returned list holds
the clientOids sent in the bulk cancel; the method returns its length. -/
def enforceMaxOrdersAt (cfg : Config) (s : CacheState) (currentPrice : Int) :
    List String :=
  let basePrice := (Int.fdiv currentPrice cfg.priceStep) * cfg.priceStep
  let desired := desiredPrices cfg basePrice
  (s.buyCurrentOrders.filter (fun p =>
      (decide (p.2.status = .live) || decide (p.2.status = .pending))
        && ! desired.contains p.2.price)).map (·.1)

/-- OrderManager.enforceMaxOrders, entry point: the falsy-price guard
around the grid filter above. -/
def enforceMaxOrders (cfg : Config) (s : CacheState) : List String :=
  match s.lastPrice with
  | none => []
  | some currentPrice =>
    if currentPrice = 0 then []
    else enforceMaxOrdersAt cfg s currentPrice

/-- One pass of the wave-splitting loop: slices of at most k elements,
with a fuel argument bounding the recursion by the list length (the
source loop advances by k ≥ 1 each iteration). -/
def chunkAux {α : Type} (k : Nat) : Nat → List α → List (List α)
  | 0, _ => []
  | _ + 1, [] => []
  | n + 1, l => l.take k :: chunkAux k n (l.drop k)

/-- Slicing a list into consecutive chunks of at most k elements,
modelling the slice loops of generateOptimizedWaves.  The source loop
diverges for k = 0, so the model clamps the stride to at least 1. -/
def chunkList {α : Type} (k : Nat) (l : List α) : List (List α) :=
  chunkAux (max 1 k) l.length l

/-- OrderManager.generateOptimizedWaves: slice into waves of at most
min(maxPerWave, 49); when the final slice would hold fewer than 25% of
the cap, re-slice with stride min(ceil(total / fullWaves), cap).  The JS
comparison lastWaveSize < cap * 0.25 is exact for these magnitudes and is
written 4 * lastWaveSize < cap. -/
def generateOptimizedWaves {α : Type} (ordersData : List α) (maxPerWave : Nat) :
    List (List α) :=
  let totalOrders := ordersData.length
  let safeMaxPerWave := min maxPerWave 49
  if totalOrders ≤ safeMaxPerWave then [ordersData]
  else
    let lastWaveSize := totalOrders % safeMaxPerWave
    if lastWaveSize ≠ 0 && 4 * lastWaveSize < safeMaxPerWave then
      let fullWaves := totalOrders / safeMaxPerWave
      if 1 ≤ fullWaves then
        let ordersPerWave := (totalOrders + fullWaves - 1) / fullWaves
        let safeOrdersPerWave := min ordersPerWave safeMaxPerWave
        chunkList safeOrdersPerWave ordersData
      else chunkList safeMaxPerWave ordersData
    else chunkList safeMaxPerWave ordersData

/-- Observable outcome of OrderManager.handleInsufficientBalance: the
cancel commands issued, whether the failed placement was retried, the
final value of the isHandlingInsufficientBalance flag, and the cancel
confirmation timeout in milliseconds. -/
structure RecoveryResult where
  cancels : List String
  retried : Bool
  finalFlag : Bool
  timeoutMs : Nat
deriving DecidableEq, Repr

/-- OrderManager.handleInsufficientBalance.  The bounded wait for the
cancelled confirmation is shallow-embedded by the boolean confirmed:
true means the confirmation event arrived within the timeout (the retry
then runs), false means the 2000 ms timeout fired (the retry is
abandoned).  The finally block always clears the flag. -/
def handleInsufficientBalance (s : CacheState) (flag : Bool)
    (failedPrice : Int) (confirmed : Bool) : RecoveryResult :=
  if flag then { cancels := [], retried := false, finalFlag := true, timeoutMs := 2000 }
  else
    let activeBuyOrders := getActiveBuyOrdersSortedByDistance s failedPrice
    if activeBuyOrders.isEmpty then
      { cancels := [], retried := false, finalFlag := false, timeoutMs := 2000 }
    else
      let eligibleOrders := activeBuyOrders.filter (fun o => decide (o.price < failedPrice))
      match eligibleOrders with
      | [] => { cancels := [], retried := false, finalFlag := false, timeoutMs := 2000 }
      | furthestOrder :: _ =>
        { cancels := [furthestOrder.clientOid], retried := confirmed
          finalFlag := false, timeoutMs := 2000 }

/-! WebSocketManager.handleOrderUpdate and the synchronous fill handlers
it triggers through the event emitter. -/

/-- Status string carried by an exchange order update. -/
inductive EventStatus where
  | live
  | filled
  | cancelled
  | canceled
  | other
deriving DecidableEq, Repr

/-- An order update event after the parseFloat step: none in price, size
or newSize models a missing field (NaN after parseFloat, null for an
absent newSize). -/
structure UpdateEvent where
  clientOid : String
  status : EventStatus
  price : Option Int
  size : Option Rat
  newSize : Option Rat
  orderId : Option String
deriving DecidableEq, Repr

/-- Commands and counter increments produced while processing one event:
buy and sell fill counters, orders-placed counter, sell placement
commands and emitted order-cancelled confirmations. -/
structure Effects where
  buyFills : Nat := 0
  sellFills : Nat := 0
  ordersPlaced : Nat := 0
  sellPlacements : List (String × Int × Rat) := []
  cancelledEmits : List String := []
deriving DecidableEq, Repr

/-- ClientOid test clientOid.startsWith applied to the buy tag,
expressed on the character list so that it evaluates in the kernel. -/
def isBuyOid (oid : String) : Bool := "buy_".data.isPrefixOf oid.data

/-- ClientOid test for the sell tag. -/
def isSellOid (oid : String) : Bool := "sell_".data.isPrefixOf oid.data

/-- The executed quantity chosen by handleOrderUpdate for a buy fill:
newSize when present and truthy, the event size otherwise. -/
def filledSizeOf (ev : UpdateEvent) : Option Rat :=
  match ev.newSize with
  | some v => if v = 0 then ev.size else some v
  | none => ev.size

/-- OrderManager.handleBuyOrderFilled: drops the event when price or
size is falsy (missing / NaN / zero); otherwise increments the buy-fill
counter and places a sell at price + priceStep for the exact quantity.
toFixed(pricePrecision) is the identity on the integer sell price. -/
def handleBuyOrderFilled (cfg : Config) (s : CacheState) :
    Option Int → Option Rat → String → Nat → CacheState × Effects
  | some p, some sz, sellOid, now =>
    if p = 0 then (s, {})
    else if sz = 0 then (s, {})
    else
      let sellPrice := p + cfg.priceStep
      let r := placeSellOrder cfg s sellPrice (some sz) sellOid now
      (r.1, { buyFills := 1, ordersPlaced := 1, sellPlacements := [r.2] })
  | none, _, _, _ => (s, {})
  | some _, none, _, _ => (s, {})

/-- Buy-fill branch of handleOrderUpdate: remove the buy order, record a
FilledBuyRecord keyed by the event price, then run the synchronously
emitted handleBuyOrderFilled. -/
def applyBuyFill (cfg : Config) (s : CacheState) (ev : UpdateEvent)
    (sellOid : String) (now : Nat) : CacheState × Effects :=
  let fSize := filledSizeOf ev
  let s1 := (removeBuyOrder s ev.clientOid).1
  let rec0 : FilledRec := { orderId := ev.orderId.getD "unknown", clientOid := ev.clientOid
                            price := ev.price, size := fSize, timestamp := now }
  let s2 := addFilledBuyOrder s1 ev.price rec0
  handleBuyOrderFilled cfg s2 ev.price fSize sellOid now

/-- Sell-fill branch of handleOrderUpdate: derive the originating buy
price as fill price minus step (NaN propagates), clear the matching
FilledBuyRecord and the sell entry, and count the sell fill (the emitted
handleSellOrderFilled increments its counter unconditionally). -/
def applySellFill (cfg : Config) (s : CacheState) (price : Option Int) :
    CacheState × Effects :=
  let buyPrice := price.map (fun p => p - cfg.priceStep)
  let s1 := (removeFilledBuyOrder s buyPrice).1
  let s2 := (removeSellOrder s1 price).1
  (s2, { sellFills := 1 })

/-- Sell-cancelled branch of handleOrderUpdate: scan sellCurrentOrders
for the entry with this clientOid and remove it. -/
def removeSellByOid (s : CacheState) (clientOid : String) : CacheState :=
  match s.sellCurrentOrders.find? (fun p => decide (sellEntryOid p.2 = clientOid)) with
  | some e => (removeSellOrder s e.1).1
  | none => s

/-- WebSocketManager.handleOrderUpdate plus the synchronous event
handlers of OrderManager: dispatch on the clientOid tag and status. -/
def handleOrderUpdate (cfg : Config) (s : CacheState) (ev : UpdateEvent)
    (sellOid : String) (now : Nat) : CacheState × Effects :=
  if isBuyOid ev.clientOid then
    match ev.status with
    | .live => ((updateOrderStatus s ev.clientOid .live .buy now).1, {})
    | .filled => applyBuyFill cfg s ev sellOid now
    | .cancelled => ((removeBuyOrder s ev.clientOid).1, { cancelledEmits := [ev.clientOid] })
    | .canceled => ((removeBuyOrder s ev.clientOid).1, { cancelledEmits := [ev.clientOid] })
    | .other => (s, {})
  else if isSellOid ev.clientOid then
    match ev.status with
    | .filled => applySellFill cfg s ev.price
    | .cancelled => (removeSellByOid s ev.clientOid, {})
    | .canceled => (removeSellByOid s ev.clientOid, {})
    | _ => (s, {})
  else (s, {})

/-! Reachable states of the order store.  Orders are created only through
the canPlaceOrder-guarded buy placement (placeBuyOrder and, per price, the
bulk variant) and through the sell placement triggered by a buy fill;
they are removed only by fill, cancel, rejection and pending-expiry
handling.  Fill and cancel events are assumed to reference an order
present in the store and to echo its recorded price (the exchange reports
the order as placed); generated clientOids are fresh. -/

/-- One environment-driven transition of the cache. -/
inductive CacheStep (cfg : Config) : CacheState → CacheState → Prop
  | placeBuy (s : CacheState) (clientOid : String) (price : Int) (now : Nat)
      (hfresh : mget s.buyCurrentOrders clientOid = none)
      (hguard : canPlaceOrder s price cfg.priceStep = true) :
      CacheStep cfg s (placeBuyOrder cfg s price clientOid now).1
  | buyLive (s : CacheState) (clientOid : String) (now : Nat) :
      CacheStep cfg s (updateOrderStatus s clientOid .live .buy now).1
  | buyFill (s : CacheState) (clientOid : String) (o : BuyOrder)
      (sz newSz : Option Rat) (oid : Option String) (sellOid : String) (now : Nat)
      (hmem : mget s.buyCurrentOrders clientOid = some o) :
      CacheStep cfg s
        (applyBuyFill cfg s
          { clientOid := clientOid, status := .filled, price := some o.price
            size := sz, newSize := newSz, orderId := oid } sellOid now).1
  | buyCancel (s : CacheState) (clientOid : String) :
      CacheStep cfg s (removeBuyOrder s clientOid).1
  | sellFill (s : CacheState) (price : Option Int) :
      CacheStep cfg s (applySellFill cfg s price).1
  | sellCancel (s : CacheState) (clientOid : String) :
      CacheStep cfg s (removeSellByOid s clientOid)
  | priceUpdate (s : CacheState) (price : Int) (now : Nat) :
      CacheStep cfg s (updatePrice s price now)
  | cleanPending (s : CacheState) (now : Nat) (maxAge : Int) :
      CacheStep cfg s (cleanPendingOrders s now maxAge).1

/-- States reachable from the empty cache under CacheStep. -/
inductive ReachableState (cfg : Config) : CacheState → Prop
  | init : ReachableState cfg initState
  | step {s t : CacheState} : ReachableState cfg s → CacheStep cfg s t →
      ReachableState cfg t

/-! Helper lemmas about the map model. -/

theorem mget_eq_none_iff {κ β : Type} [DecidableEq κ] {m : List (κ × β)} {k : κ} :
    mget m k = none ↔ ∀ p ∈ m, p.1 ≠ k := by
  unfold mget
  simp [List.find?_eq_none]

theorem mhas_eq_false_iff {κ β : Type} [DecidableEq κ] {m : List (κ × β)} {k : κ} :
    mhas m k = false ↔ ∀ p ∈ m, p.1 ≠ k := by
  unfold mhas
  simp

theorem find?_key_cons_pos {κ β : Type} [DecidableEq κ] (a : κ × β)
    (l : List (κ × β)) (k : κ) (h : a.1 = k) :
    (a :: l).find? (fun p => decide (p.1 = k)) = some a :=
  List.find?_cons_of_pos _ (by simpa using h)

theorem find?_key_cons_neg {κ β : Type} [DecidableEq κ] (a : κ × β)
    (l : List (κ × β)) (k : κ) (h : ¬ a.1 = k) :
    (a :: l).find? (fun p => decide (p.1 = k)) = l.find? (fun p => decide (p.1 = k)) :=
  List.find?_cons_of_neg _ (by simpa using h)

theorem mhas_true_of_mget_some {κ β : Type} [DecidableEq κ] {m : List (κ × β)}
    {k : κ} {v : β} (h : mget m k = some v) : mhas m k = true := by
  unfold mget at h
  cases hf : m.find? (fun p => decide (p.1 = k)) with
  | none => rw [hf] at h; simp at h
  | some p =>
    have hp := List.mem_of_find?_eq_some hf
    have hk := List.find?_some hf
    unfold mhas
    rw [List.any_eq_true]
    exact ⟨p, hp, hk⟩

theorem mget_mem {κ β : Type} [DecidableEq κ] {m : List (κ × β)} {k : κ} {v : β}
    (h : mget m k = some v) : (k, v) ∈ m := by
  unfold mget at h
  cases hf : m.find? (fun p => decide (p.1 = k)) with
  | none => rw [hf] at h; simp at h
  | some p =>
    rw [hf] at h
    have hk := List.find?_some hf
    have hm := List.mem_of_find?_eq_some hf
    simp at h
    simp only [decide_eq_true_eq] at hk
    have hpe : p = (k, v) := Prod.ext hk h
    rw [hpe] at hm
    exact hm

theorem mem_mset {κ β : Type} [DecidableEq κ] {m : List (κ × β)} {k : κ} {v : β}
    {p : κ × β} (h : p ∈ mset m k v) : p = (k, v) ∨ p ∈ m := by
  unfold mset at h
  by_cases hc : mhas m k = true
  · rw [if_pos hc] at h
    rcases List.mem_map.mp h with ⟨q, hq, hfq⟩
    by_cases hk : q.1 = k
    · rw [if_pos hk] at hfq
      left
      exact hfq.symm
    · rw [if_neg hk] at hfq
      right
      rw [← hfq]
      exact hq
  · rw [if_neg hc] at h
    rcases List.mem_append.mp h with h1 | h1
    · right; exact h1
    · left; simpa using h1

theorem mhas_mset_self {κ β : Type} [DecidableEq κ] (m : List (κ × β)) (k : κ)
    (v : β) : mhas (mset m k v) k = true := by
  unfold mset
  by_cases hc : mhas m k = true
  · rw [if_pos hc]
    unfold mhas at hc ⊢
    rw [List.any_eq_true] at hc ⊢
    rcases hc with ⟨p, hp, hpk⟩
    simp only [decide_eq_true_eq] at hpk
    refine ⟨(k, v), List.mem_map.mpr ⟨p, hp, by rw [if_pos hpk]⟩, by simp⟩
  · rw [if_neg hc]
    unfold mhas
    simp

theorem mhas_mset_false {κ β : Type} [DecidableEq κ] {m : List (κ × β)}
    {k k2 : κ} (v : β) (h2 : mhas m k2 = false) (hne : k2 ≠ k) :
    mhas (mset m k v) k2 = false := by
  rw [mhas_eq_false_iff] at h2 ⊢
  intro p hp
  rcases mem_mset hp with he | hm
  · rw [he]
    exact fun hh => hne hh.symm
  · exact h2 p hm

theorem find_map_set {κ β : Type} [DecidableEq κ] (m : List (κ × β)) (k : κ)
    (v : β) (h : mhas m k = true) :
    (m.map (fun p => if p.1 = k then (k, v) else p)).find? (fun p => decide (p.1 = k))
      = some (k, v) := by
  induction m with
  | nil => unfold mhas at h; simp at h
  | cons p rest ih =>
    by_cases hpk : p.1 = k
    · rw [List.map_cons, if_pos hpk]
      exact find?_key_cons_pos _ _ _ rfl
    · have hrest : mhas rest k = true := by
        unfold mhas at h ⊢
        rw [List.any_cons] at h
        simpa [hpk] using h
      rw [List.map_cons, if_neg hpk, find?_key_cons_neg _ _ _ hpk]
      exact ih hrest

theorem find_map_set_ne {κ β : Type} [DecidableEq κ] (m : List (κ × β))
    (k k2 : κ) (v : β) (hne : k2 ≠ k) :
    (m.map (fun p => if p.1 = k then (k, v) else p)).find? (fun p => decide (p.1 = k2))
      = m.find? (fun p => decide (p.1 = k2)) := by
  induction m with
  | nil => rfl
  | cons p rest ih =>
    by_cases hpk : p.1 = k
    · have h2 : ¬ (p.1 = k2) := by
        rw [hpk]
        exact fun he => hne he.symm
      rw [List.map_cons, if_pos hpk]
      rw [find?_key_cons_neg ((k, v) : κ × β) _ k2 (fun he => hne he.symm)]
      rw [find?_key_cons_neg p _ k2 h2]
      exact ih
    · rw [List.map_cons, if_neg hpk]
      by_cases hp2 : p.1 = k2
      · rw [find?_key_cons_pos p _ k2 hp2, find?_key_cons_pos p _ k2 hp2]
      · rw [find?_key_cons_neg p _ k2 hp2, find?_key_cons_neg p _ k2 hp2]
        exact ih

theorem mget_mset_self {κ β : Type} [DecidableEq κ] (m : List (κ × β)) (k : κ)
    (v : β) : mget (mset m k v) k = some v := by
  unfold mset
  by_cases hc : mhas m k = true
  · rw [if_pos hc]
    unfold mget
    rw [find_map_set m k v hc]
    rfl
  · rw [if_neg hc]
    unfold mget
    rw [List.find?_append]
    have hnone : m.find? (fun p => decide (p.1 = k)) = none := by
      rw [List.find?_eq_none]
      intro p hp
      simp only [decide_eq_true_eq]
      exact (mhas_eq_false_iff.mp (Bool.not_eq_true _ ▸ hc)) p hp
    rw [hnone]
    simp

theorem mget_mset_ne {κ β : Type} [DecidableEq κ] (m : List (κ × β)) (k k2 : κ)
    (v : β) (h : k2 ≠ k) : mget (mset m k v) k2 = mget m k2 := by
  unfold mset
  by_cases hc : mhas m k = true
  · rw [if_pos hc]
    unfold mget
    rw [find_map_set_ne m k k2 v h]
  · rw [if_neg hc]
    unfold mget
    rw [List.find?_append]
    cases hf : m.find? (fun p => decide (p.1 = k2)) with
    | some p => simp
    | none =>
      simp only [Option.none_or]
      rw [find?_key_cons_neg ((k, v) : κ × β) _ k2 (fun he => h he.symm)]
      simp

theorem mget_mdel_self {κ β : Type} [DecidableEq κ] (m : List (κ × β)) (k : κ) :
    mget (mdel m k) k = none := by
  unfold mget mdel
  have hnone : (m.filter (fun p => decide (p.1 ≠ k))).find? (fun p => decide (p.1 = k)) = none := by
    rw [List.find?_eq_none]
    intro p hp
    rcases List.mem_filter.mp hp with ⟨_, hpk⟩
    simpa using hpk
  rw [hnone]
  rfl

theorem mget_mdel_ne {κ β : Type} [DecidableEq κ] (m : List (κ × β)) (k k2 : κ)
    (h : k2 ≠ k) : mget (mdel m k) k2 = mget m k2 := by
  unfold mget mdel
  induction m with
  | nil => rfl
  | cons p rest ih =>
    rw [List.filter_cons]
    by_cases hpk : p.1 = k
    · have hcond : (decide (p.1 ≠ k)) = false := by simpa using hpk
      rw [hcond]
      simp only [Bool.false_eq_true, if_false]
      have hp2 : ¬ (p.1 = k2) := by
        rw [hpk]
        exact fun he => h he.symm
      rw [find?_key_cons_neg p _ k2 hp2]
      exact ih
    · have hcond : (decide (p.1 ≠ k)) = true := by simpa using hpk
      rw [hcond]
      simp only [if_true]
      by_cases hp2 : p.1 = k2
      · rw [find?_key_cons_pos p _ k2 hp2, find?_key_cons_pos p _ k2 hp2]
      · rw [find?_key_cons_neg p _ k2 hp2, find?_key_cons_neg p _ k2 hp2]
        exact ih

theorem mhas_filter_false {κ β : Type} [DecidableEq κ] {m : List (κ × β)} {k : κ}
    (f : κ × β → Bool) (h : mhas m k = false) : mhas (m.filter f) k = false := by
  rw [mhas_eq_false_iff] at *
  intro p hp
  exact h p (List.mem_of_mem_filter hp)

theorem keys_mset_of_mhas {κ β : Type} [DecidableEq κ] {m : List (κ × β)} {k : κ}
    (v : β) (h : mhas m k = true) :
    (mset m k v).map (·.1) = m.map (·.1) := by
  unfold mset
  rw [if_pos h, List.map_map]
  apply List.map_congr_left
  intro p _
  by_cases hk : p.1 = k
  · simp [hk]
  · simp [hk]

theorem entry_eq_of_mget {κ β : Type} [DecidableEq κ] {m : List (κ × β)} {k : κ}
    {v : β} (hnd : (m.map (·.1)).Nodup) (h : mget m k = some v) :
    ∀ p ∈ m, p.1 = k → p = (k, v) := by
  intro p hp hpk
  have hkv := mget_mem h
  by_cases he : p = (k, v)
  · exact he
  · exfalso
    have hsym : Symmetric (fun a b : κ × β => a.1 ≠ b.1) := fun a b hab => (Ne.symm hab)
    have hpw := (List.pairwise_map.mp hnd).forall hsym hp hkv he
    exact hpw (by simp [hpk])

theorem prices_mset_status {m : List (String × BuyOrder)} {k : String}
    {o : BuyOrder} (st : Status) (hnd : (m.map (·.1)).Nodup)
    (h : mget m k = some o) :
    (mset m k { o with status := st }).map (fun p => p.2.price)
      = m.map (fun p => p.2.price) := by
  unfold mset
  rw [if_pos (mhas_true_of_mget_some h), List.map_map]
  apply List.map_congr_left
  intro p hp
  by_cases hk : p.1 = k
  · have hpe := entry_eq_of_mget hnd h p hp hk
    rw [hpe]
    simp
  · simp [hk]

/-! Lemmas about the stable descending sort used by
getActiveBuyOrdersSortedByDistance. -/

theorem mem_insertDescBy {α : Type} (key : α → Nat) (a x : α) (l : List α) :
    x ∈ insertDescBy key a l ↔ x = a ∨ x ∈ l := by
  induction l with
  | nil => simp [insertDescBy]
  | cons b bs ih =>
    unfold insertDescBy
    by_cases hc : key b ≤ key a
    · rw [if_pos hc]
      simp
    · rw [if_neg hc]
      simp only [List.mem_cons, ih]
      tauto

theorem mem_sortDescBy {α : Type} (key : α → Nat) (x : α) (l : List α) :
    x ∈ sortDescBy key l ↔ x ∈ l := by
  induction l with
  | nil => simp [sortDescBy]
  | cons b bs ih =>
    unfold sortDescBy at ih ⊢
    rw [List.foldr_cons, mem_insertDescBy, ih, List.mem_cons]

theorem pairwise_insertDescBy {α : Type} (key : α → Nat) (a : α) (l : List α)
    (h : l.Pairwise (fun x y => key y ≤ key x)) :
    (insertDescBy key a l).Pairwise (fun x y => key y ≤ key x) := by
  induction l with
  | nil => simp [insertDescBy]
  | cons b bs ih =>
    unfold insertDescBy
    rcases List.pairwise_cons.mp h with ⟨hb, hbs⟩
    by_cases hc : key b ≤ key a
    · rw [if_pos hc]
      refine List.pairwise_cons.mpr ⟨?_, h⟩
      intro z hz
      rcases List.mem_cons.mp hz with he | hm
      · rw [he]; exact hc
      · exact le_trans (hb z hm) hc
    · rw [if_neg hc]
      refine List.pairwise_cons.mpr ⟨?_, ih hbs⟩
      intro z hz
      rcases (mem_insertDescBy key a z bs).mp hz with he | hm
      · rw [he]
        exact le_of_lt (lt_of_not_le hc)
      · exact hb z hm

theorem pairwise_sortDescBy {α : Type} (key : α → Nat) (l : List α) :
    (sortDescBy key l).Pairwise (fun x y => key y ≤ key x) := by
  induction l with
  | nil => simp [sortDescBy]
  | cons b bs ih =>
    unfold sortDescBy at ih ⊢
    rw [List.foldr_cons]
    exact pairwise_insertDescBy key b _ ih

/-! Lemmas about wave chunking. -/

theorem chunkAux_flatten {α : Type} (k : Nat) (hk : 1 ≤ k) :
    ∀ (n : Nat) (l : List α), l.length ≤ n → (chunkAux k n l).flatten = l := by
  intro n
  induction n with
  | zero =>
    intro l hl
    have : l = [] := List.eq_nil_of_length_eq_zero (Nat.le_zero.mp hl)
    rw [this]
    rfl
  | succ n ih =>
    intro l hl
    cases l with
    | nil => rfl
    | cons x xs =>
      show (List.take k (x :: xs) :: chunkAux k n (List.drop k (x :: xs))).flatten = x :: xs
      rw [List.flatten_cons, ih (List.drop k (x :: xs)) ?_, List.take_append_drop]
      rw [List.length_drop]
      simp only [List.length_cons] at hl ⊢
      omega

theorem chunkAux_mem {α : Type} (k : Nat) (hk : 1 ≤ k) :
    ∀ (n : Nat) (l : List α) (w : List α), w ∈ chunkAux k n l →
      w.length ≤ k ∧ w ≠ [] := by
  intro n
  induction n with
  | zero =>
    intro l w hw
    simp [chunkAux] at hw
  | succ n ih =>
    intro l w hw
    cases l with
    | nil => simp [chunkAux] at hw
    | cons x xs =>
      have hw2 : w = List.take k (x :: xs) ∨ w ∈ chunkAux k n (List.drop k (x :: xs)) := by
        simpa [chunkAux] using hw
      rcases hw2 with he | hm
      · constructor
        · rw [he]
          simp
        · rw [he]
          cases k with
          | zero => omega
          | succ k0 => simp [List.take_cons]
      · exact ih _ w hm

theorem chunkList_flatten {α : Type} (k : Nat) (l : List α) :
    (chunkList k l).flatten = l :=
  chunkAux_flatten (max 1 k) (le_max_left 1 k) l.length l (le_refl _)

theorem chunkList_mem {α : Type} (k : Nat) (l : List α) (w : List α)
    (hw : w ∈ chunkList k l) : w.length ≤ max 1 k ∧ w ≠ [] :=
  chunkAux_mem (max 1 k) (le_max_left 1 k) l.length l w hw

/-! The C1 store invariant: distinct buy clientOids, pairwise distinct
active buy prices, and no active buy at price P while a sell at
P + priceStep is active. -/

/-- Invariant of the order store over reachable states: buy keys are
distinct, buy prices are pairwise distinct, and no buy order coexists
with a sell entry one price step above it. -/
def InvC1 (cfg : Config) (s : CacheState) : Prop :=
  (s.buyCurrentOrders.map (·.1)).Nodup ∧
  (s.buyCurrentOrders.map (fun p => p.2.price)).Nodup ∧
  ∀ p ∈ s.buyCurrentOrders,
    mhas s.sellCurrentOrders (some (p.2.price + cfg.priceStep)) = false

theorem invC1_of_shrink {cfg : Config} {s t : CacheState}
    (hb : t.buyCurrentOrders.Sublist s.buyCurrentOrders)
    (hs : ∀ k, mhas s.sellCurrentOrders k = false →
      mhas t.sellCurrentOrders k = false)
    (h : InvC1 cfg s) : InvC1 cfg t := by
  obtain ⟨h1, h2, h3⟩ := h
  refine ⟨List.Nodup.sublist (hb.map _) h1, List.Nodup.sublist (hb.map _) h2, ?_⟩
  intro p hp
  exact hs _ (h3 p (hb.subset hp))

theorem canPlaceOrder_parts {s : CacheState} {price step : Int}
    (h : canPlaceOrder s price step = true) :
    s.buyCurrentOrders.any (fun p => decide (p.2.price = price)) = false ∧
    mhas s.sellCurrentOrders (some (price + step)) = false ∧
    mhas s.buyFilledOrders (some price) = false := by
  unfold canPlaceOrder at h
  by_cases h1 : s.buyCurrentOrders.any (fun p => decide (p.2.price = price)) = true
  · rw [if_pos h1] at h; exact absurd h (by simp)
  · rw [if_neg h1] at h
    by_cases h2 : mhas s.sellCurrentOrders (some (price + step)) = true
    · rw [if_pos h2] at h; exact absurd h (by simp)
    · rw [if_neg h2] at h
      by_cases h3 : mhas s.buyFilledOrders (some price) = true
      · rw [if_pos h3] at h; exact absurd h (by simp)
      · exact ⟨Bool.not_eq_true _ ▸ h1, Bool.not_eq_true _ ▸ h2,
          Bool.not_eq_true _ ▸ h3⟩

theorem invC1_placeBuy (cfg : Config) (s : CacheState) (clientOid : String)
    (price : Int) (now : Nat)
    (hfresh : mget s.buyCurrentOrders clientOid = none)
    (hguard : canPlaceOrder s price cfg.priceStep = true)
    (h : InvC1 cfg s) :
    InvC1 cfg (placeBuyOrder cfg s price clientOid now).1 := by
  obtain ⟨h1, h2, h3⟩ := h
  obtain ⟨hA, hS, _⟩ := canPlaceOrder_parts hguard
  unfold placeBuyOrder
  rw [if_pos hguard]
  unfold addBuyOrder
  have hnothas : mhas s.buyCurrentOrders clientOid = false :=
    mhas_eq_false_iff.mpr (mget_eq_none_iff.mp hfresh)
  have hmset : mset s.buyCurrentOrders clientOid
      { price := price, size := calculateOrderSize cfg price
        status := .pending, timestamp := now }
      = s.buyCurrentOrders ++ [(clientOid,
          { price := price, size := calculateOrderSize cfg price
            status := .pending, timestamp := now })] := by
    unfold mset
    rw [if_neg (by simp [hnothas])]
  refine ⟨?_, ?_, ?_⟩
  · show ((mset s.buyCurrentOrders clientOid _).map (·.1)).Nodup
    rw [hmset, List.map_append]
    rw [List.nodup_append]
    refine ⟨h1, by simp, ?_⟩
    intro a ha
    simp only [List.map_cons, List.map_nil, List.mem_cons, List.not_mem_nil,
      or_false]
    intro hae
    rcases List.mem_map.mp ha with ⟨p, hp, hpk⟩
    have := (mget_eq_none_iff.mp hfresh) p hp
    rw [hpk] at this
    exact this hae
  · show ((mset s.buyCurrentOrders clientOid _).map (fun p => p.2.price)).Nodup
    rw [hmset, List.map_append]
    rw [List.nodup_append]
    refine ⟨h2, by simp, ?_⟩
    intro a ha
    simp only [List.map_cons, List.map_nil, List.mem_cons, List.not_mem_nil,
      or_false]
    intro hae
    rcases List.mem_map.mp ha with ⟨p, hp, hpk⟩
    rw [List.any_eq_false] at hA
    have := hA p hp
    simp only [decide_eq_true_eq] at this
    exact this (by rw [hpk]; exact hae)
  · intro p hp
    show mhas s.sellCurrentOrders _ = false
    have hp2 : p ∈ mset s.buyCurrentOrders clientOid _ := hp
    rw [hmset] at hp2
    rcases List.mem_append.mp hp2 with hold | hnew
    · exact h3 p hold
    · have : p = (clientOid,
          { price := price, size := calculateOrderSize cfg price
            status := .pending, timestamp := now }) := by simpa using hnew
      rw [this]
      exact hS

theorem invC1_buyLive (cfg : Config) (s : CacheState) (clientOid : String)
    (now : Nat) (h : InvC1 cfg s) :
    InvC1 cfg (updateOrderStatus s clientOid .live .buy now).1 := by
  obtain ⟨h1, h2, h3⟩ := h
  unfold updateOrderStatus updateBuyStatus
  cases hm : mget s.buyCurrentOrders clientOid with
  | none => exact ⟨h1, h2, h3⟩
  | some o =>
    refine ⟨?_, ?_, ?_⟩
    · show ((mset s.buyCurrentOrders clientOid _).map (·.1)).Nodup
      rw [keys_mset_of_mhas _ (mhas_true_of_mget_some hm)]
      exact h1
    · show ((mset s.buyCurrentOrders clientOid _).map (fun p => p.2.price)).Nodup
      rw [prices_mset_status .live h1 hm]
      exact h2
    · intro p hp
      show mhas s.sellCurrentOrders _ = false
      rcases mem_mset hp with he | hold
      · rw [he]
        exact h3 (clientOid, o) (mget_mem hm)
      · exact h3 p hold

theorem invC1_applyBuyFill (cfg : Config) (s : CacheState) (clientOid : String)
    (o : BuyOrder) (sz nsz : Option Rat) (oid : Option String)
    (sellOid : String) (now : Nat)
    (hmem : mget s.buyCurrentOrders clientOid = some o)
    (h : InvC1 cfg s) :
    InvC1 cfg (applyBuyFill cfg s
      { clientOid := clientOid, status := .filled, price := some o.price
        size := sz, newSize := nsz, orderId := oid } sellOid now).1 := by
  obtain ⟨h1, h2, h3⟩ := h
  have hrem : removeBuyOrder s clientOid
      = ({ s with buyCurrentOrders := mdel s.buyCurrentOrders clientOid }, some o) := by
    unfold removeBuyOrder
    rw [hmem]
  -- the state after remove plus filled-record insert
  have hs2 : InvC1 cfg { s with
      buyCurrentOrders := mdel s.buyCurrentOrders clientOid,
      buyFilledOrders := mset s.buyFilledOrders (some o.price)
        { orderId := oid.getD "unknown", clientOid := clientOid
          price := some o.price, size := filledSizeOf
            { clientOid := clientOid, status := .filled, price := some o.price
              size := sz, newSize := nsz, orderId := oid 
            }, timestamp := now } } := by
    refine ⟨?_, ?_, ?_⟩
    · exact List.Nodup.sublist ((List.filter_sublist _).map _) h1
    · exact List.Nodup.sublist ((List.filter_sublist _).map _) h2
    · intro p hp
      exact h3 p (List.mem_of_mem_filter hp)
  have hneq : ∀ p ∈ mdel s.buyCurrentOrders clientOid, p.2.price ≠ o.price := by
    intro p hp
    rcases List.mem_filter.mp hp with ⟨hpm, hpk⟩
    simp only [decide_eq_true_eq] at hpk
    have hko : (clientOid, o) ∈ s.buyCurrentOrders := mget_mem hmem
    have hne : p ≠ (clientOid, o) := by
      intro he
      rw [he] at hpk
      exact hpk rfl
    have hsym : Symmetric (fun a b : String × BuyOrder => a.2.price ≠ b.2.price) :=
      fun a b hab => Ne.symm hab
    exact (List.pairwise_map.mp h2).forall hsym hpm hko hne
  unfold applyBuyFill
  rw [hrem]
  cases hfs : filledSizeOf
      { clientOid := clientOid, status := .filled, price := some o.price
        size := sz, newSize := nsz, orderId := oid } with
  | none =>
    simp only [handleBuyOrderFilled]
    rw [hfs] at hs2
    exact hs2
  | some szv =>
    simp only [handleBuyOrderFilled]
    rw [hfs] at hs2
    by_cases hp0 : o.price = 0
    · rw [if_pos hp0]
      exact hs2
    · rw [if_neg hp0]
      by_cases hsz0 : szv = 0
      · rw [if_pos hsz0]
        exact hs2
      · rw [if_neg hsz0]
        unfold placeSellOrder addSellOrder
        obtain ⟨g1, g2, g3⟩ := hs2
        refine ⟨g1, g2, ?_⟩
        intro p hp
        show mhas (mset _ (some (o.price + cfg.priceStep)) _) _ = false
        refine mhas_mset_false _ (g3 p hp) ?_
        intro hcontra
        have hpe : p.2.price = o.price := by
          have := Option.some_inj.mp hcontra
          omega
        exact hneq p hp hpe

theorem removeBuyOrder_buys_sublist (s : CacheState) (clientOid : String) :
    (removeBuyOrder s clientOid).1.buyCurrentOrders.Sublist s.buyCurrentOrders := by
  unfold removeBuyOrder
  cases mget s.buyCurrentOrders clientOid with
  | some o => exact List.filter_sublist _
  | none => exact List.Sublist.refl _

theorem removeBuyOrder_sells_eq (s : CacheState) (clientOid : String) :
    (removeBuyOrder s clientOid).1.sellCurrentOrders = s.sellCurrentOrders := by
  unfold removeBuyOrder
  cases mget s.buyCurrentOrders clientOid with
  | some o => rfl
  | none => rfl

theorem removeSellOrder_buys_eq (s : CacheState) (price : PriceVal) :
    (removeSellOrder s price).1.buyCurrentOrders = s.buyCurrentOrders := by
  unfold removeSellOrder
  cases mget s.sellCurrentOrders price with
  | some e => rfl
  | none => rfl

theorem removeSellOrder_mhas_false (s : CacheState) (price : PriceVal) (k : PriceVal)
    (h : mhas s.sellCurrentOrders k = false) :
    mhas (removeSellOrder s price).1.sellCurrentOrders k = false := by
  unfold removeSellOrder
  cases mget s.sellCurrentOrders price with
  | some e => exact mhas_filter_false _ h
  | none => exact h

theorem removeFilledBuyOrder_frame (s : CacheState) (price : PriceVal) :
    (removeFilledBuyOrder s price).1.buyCurrentOrders = s.buyCurrentOrders ∧
    (removeFilledBuyOrder s price).1.sellCurrentOrders = s.sellCurrentOrders := by
  unfold removeFilledBuyOrder
  cases mget s.buyFilledOrders price with
  | some d => exact ⟨rfl, rfl⟩
  | none => exact ⟨rfl, rfl⟩

theorem invC1_removeSellByOid (cfg : Config) (s : CacheState) (clientOid : String)
    (h : InvC1 cfg s) : InvC1 cfg (removeSellByOid s clientOid) := by
  unfold removeSellByOid
  cases s.sellCurrentOrders.find? (fun p => decide (sellEntryOid p.2 = clientOid)) with
  | some e =>
    refine invC1_of_shrink ?_ ?_ h
    · rw [removeSellOrder_buys_eq]
    · intro k hk
      exact removeSellOrder_mhas_false s e.1 k hk
  | none => exact h

/-- C1 amended, part 1: every reachable state of the order store has
pairwise-distinct buy clientOids, pairwise-distinct buy prices, and no
buy order at price P together with a sell entry at P + priceStep.  (The
claimed exclusion of a buy and a sell at the same price is refuted by
the counterexample below; the code guard runs in the other direction.) -/
theorem c1_grid_invariant (cfg : Config) (s : CacheState)
    (h : ReachableState cfg s) : InvC1 cfg s := by
  induction h with
  | init =>
    refine ⟨?_, ?_, ?_⟩
    · simp [initState]
    · simp [initState]
    · intro p hp
      simp [initState] at hp
  | step hr hstep ih =>
    rename_i s t
    cases hstep with
    | placeBuy clientOid price now hfresh hguard =>
      exact invC1_placeBuy cfg s clientOid price now hfresh hguard ih
    | buyLive clientOid now =>
      exact invC1_buyLive cfg s clientOid now ih
    | buyFill clientOid o szv nszv oid sellOid now hmem =>
      exact invC1_applyBuyFill cfg s clientOid o szv nszv oid sellOid now hmem ih
    | buyCancel clientOid =>
      refine invC1_of_shrink (removeBuyOrder_buys_sublist s clientOid) ?_ ih
      intro k hk
      rw [removeBuyOrder_sells_eq]
      exact hk
    | sellFill price =>
      unfold applySellFill
      refine invC1_of_shrink ?_ ?_ ih
      · simp only
        rw [removeSellOrder_buys_eq, (removeFilledBuyOrder_frame s _).1]
      · intro k hk
        simp only
        apply removeSellOrder_mhas_false
        rw [(removeFilledBuyOrder_frame s _).2]
        exact hk
    | sellCancel clientOid =>
      exact invC1_removeSellByOid cfg s clientOid ih
    | priceUpdate price now => exact ih
    | cleanPending now maxAge =>
      refine invC1_of_shrink ?_ ?_ ih
      · exact List.filter_sublist _
      · intro k hk
        exact mhas_filter_false _ hk

/-! C1 counterexample trace: place a buy at 9950, let it fill (the code
places the paired sell at 10000), then place a buy at 10000 — the guard
only looks at a sell at 10050, so it passes, and the store now holds an
active buy and an active sell both at 10000. -/

/-- Trace state 1: a buy placed at 9950 on the empty store. -/
def c1s1 : CacheState := (placeBuyOrder config0 initState 9950 "buy_1" 0).1

/-- The stored order of the first placement. -/
def c1o1 : BuyOrder :=
  { price := 9950, size := calculateOrderSize config0 9950
    status := .pending, timestamp := 0 }

/-- Trace state 2: the buy at 9950 fills for quantity 1; the handler
records the FilledBuyRecord at 9950 and places the sell at 10000. -/
def c1s2 : CacheState :=
  (applyBuyFill config0 c1s1
    { clientOid := "buy_1", status := .filled, price := some 9950
      size := some 1, newSize := none, orderId := none } "sell_1" 1).1

/-- Trace state 3: a buy placed at 10000 — canPlaceOrder passes because
it checks a sell at 10050, not at 10000. -/
def c1s3 : CacheState := (placeBuyOrder config0 c1s2 10000 "buy_2" 2).1

theorem c1s3_reachable : ReachableState config0 c1s3 := by
  have r1 : ReachableState config0 c1s1 :=
    ReachableState.step ReachableState.init
      (CacheStep.placeBuy initState "buy_1" 9950 0 (by decide) (by decide))
  have r2 : ReachableState config0 c1s2 :=
    ReachableState.step r1
      (CacheStep.buyFill c1s1 "buy_1" c1o1 (some 1) none none "sell_1" 1 rfl)
  exact ReachableState.step r2
    (CacheStep.placeBuy c1s2 "buy_2" 10000 2 rfl (by decide))

/-- C1 counterexample: in the reachable state c1s3 an active (pending)
buy order at 10000 coexists with an active sell order at 10000, refuting
the claimed exclusion of (buy@P, sell@P); the code prevents
(buy@P, sell@P+step) instead. -/
theorem c1_counterexample :
    ReachableState config0 c1s3 ∧
    c1s3.buyCurrentOrders.any (fun p => decide (p.2.price = 10000)) = true ∧
    mhas c1s3.sellCurrentOrders (some 10000) = true :=
  ⟨c1s3_reachable, by decide, by decide⟩

/-- C1 witness: the amended invariant instantiated at the concrete
reachable state c1s3. -/
theorem c1_grid_invariant_witness : InvC1 config0 c1s3 :=
  c1_grid_invariant config0 c1s3 c1s3_reachable

/-! Wave-shape lemmas for generateOptimizedWaves. -/

theorem generateOptimizedWaves_flatten {α : Type} (l : List α) (cap : Nat) :
    (generateOptimizedWaves l cap).flatten = l := by
  unfold generateOptimizedWaves
  by_cases h1 : l.length ≤ min cap 49
  · rw [if_pos h1]
    simp
  · rw [if_neg h1]
    by_cases h2 : (l.length % min cap 49 ≠ 0 && 4 * (l.length % min cap 49) < min cap 49) = true
    · rw [if_pos h2]
      by_cases h3 : 1 ≤ l.length / min cap 49
      · rw [if_pos h3]
        exact chunkList_flatten _ l
      · rw [if_neg h3]
        exact chunkList_flatten _ l
    · rw [if_neg h2]
      exact chunkList_flatten _ l

theorem generateOptimizedWaves_wave_le {α : Type} (l : List α) (cap : Nat)
    (hcap : 1 ≤ cap) :
    ∀ w ∈ generateOptimizedWaves l cap, w.length ≤ min cap 49 := by
  have hsafe : 1 ≤ min cap 49 := le_min hcap (by omega)
  intro w hw
  unfold generateOptimizedWaves at hw
  by_cases h1 : l.length ≤ min cap 49
  · rw [if_pos h1] at hw
    have : w = l := by simpa using hw
    rw [this]
    exact h1
  · rw [if_neg h1] at hw
    by_cases h2 : (l.length % min cap 49 ≠ 0 && 4 * (l.length % min cap 49) < min cap 49) = true
    · rw [if_pos h2] at hw
      by_cases h3 : 1 ≤ l.length / min cap 49
      · rw [if_pos h3] at hw
        have hbound := (chunkList_mem _ l w hw).1
        have hle : min ((l.length + l.length / min cap 49 - 1) / (l.length / min cap 49))
            (min cap 49) ≤ min cap 49 := min_le_right _ _
        have h1le : 1 ≤ min ((l.length + l.length / min cap 49 - 1) / (l.length / min cap 49))
            (min cap 49) := by
          refine le_min ?_ hsafe
          have hlen1 : 1 ≤ l.length := by omega
          have := Nat.div_le_div_right (c := l.length / min cap 49)
            (show l.length / min cap 49 ≤ l.length + l.length / min cap 49 - 1 by omega)
          calc 1 = (l.length / min cap 49) / (l.length / min cap 49) :=
                (Nat.div_self h3).symm
            _ ≤ _ := this
        rw [max_eq_right h1le] at hbound
        exact le_trans hbound hle
      · rw [if_neg h3] at hw
        have hbound := (chunkList_mem _ l w hw).1
        rw [max_eq_right hsafe] at hbound
        exact hbound
    · rw [if_neg h2] at hw
      have hbound := (chunkList_mem _ l w hw).1
      rw [max_eq_right hsafe] at hbound
      exact hbound

theorem generateOptimizedWaves_wave_ne_nil {α : Type} (l : List α) (cap : Nat)
    (hne : l ≠ []) :
    ∀ w ∈ generateOptimizedWaves l cap, w ≠ [] := by
  intro w hw
  unfold generateOptimizedWaves at hw
  by_cases h1 : l.length ≤ min cap 49
  · rw [if_pos h1] at hw
    have : w = l := by simpa using hw
    rw [this]
    exact hne
  · rw [if_neg h1] at hw
    by_cases h2 : (l.length % min cap 49 ≠ 0 && 4 * (l.length % min cap 49) < min cap 49) = true
    · rw [if_pos h2] at hw
      by_cases h3 : 1 ≤ l.length / min cap 49
      · rw [if_pos h3] at hw
        exact (chunkList_mem _ l w hw).2
      · rw [if_neg h3] at hw
        exact (chunkList_mem _ l w hw).2
    · rw [if_neg h2] at hw
      exact (chunkList_mem _ l w hw).2

theorem chunkAux_map_length_congr {α β : Type} (k : Nat) :
    ∀ (n : Nat) (l : List α) (m : List β), l.length = m.length →
      (chunkAux k n l).map List.length = (chunkAux k n m).map List.length := by
  intro n
  induction n with
  | zero => intro l m _; rfl
  | succ n ih =>
    intro l m hlm
    cases l with
    | nil =>
      cases m with
      | nil => rfl
      | cons y ys => simp at hlm
    | cons x xs =>
      cases m with
      | nil => simp at hlm
      | cons y ys =>
        show (List.take k (x :: xs)).length :: _ = (List.take k (y :: ys)).length :: _
        rw [List.length_take, List.length_take, hlm]
        congr 1
        apply ih
        rw [List.length_drop, List.length_drop, hlm]

theorem generateOptimizedWaves_map_length_congr {α β : Type} (cap : Nat)
    (l : List α) (m : List β) (hlm : l.length = m.length) :
    (generateOptimizedWaves l cap).map List.length
      = (generateOptimizedWaves m cap).map List.length := by
  unfold generateOptimizedWaves
  rw [← hlm]
  by_cases h1 : l.length ≤ min cap 49
  · rw [if_pos h1, if_pos h1]
    simp [hlm]
  · rw [if_neg h1, if_neg h1]
    by_cases h2 : (l.length % min cap 49 ≠ 0 && 4 * (l.length % min cap 49) < min cap 49) = true
    · rw [if_pos h2, if_pos h2]
      by_cases h3 : 1 ≤ l.length / min cap 49
      · rw [if_pos h3, if_pos h3]
        unfold chunkList
        rw [← hlm]
        exact chunkAux_map_length_congr _ _ l m hlm
      · rw [if_neg h3, if_neg h3]
        unfold chunkList
        rw [← hlm]
        exact chunkAux_map_length_congr _ _ l m hlm
    · rw [if_neg h2, if_neg h2]
      unfold chunkList
      rw [← hlm]
      exact chunkAux_map_length_congr _ _ l m hlm

/-- C2 counterexample: 100 orders with cap 49 are NOT redistributed into
34/33/33; the re-sliced stride is min(ceil(100/2), 49) = 49 again, so the
result is waves of 49, 49 and 2 — the final wave (2) is below 25% of the
cap even though redistribution was possible. -/
theorem c2_counterexample :
    (generateOptimizedWaves (List.range 100) 49).map List.length = [49, 49, 2] ∧
    4 * 2 < 49 := ⟨by decide, by decide⟩

/-- C2 amended: the waves of generateOptimizedWaves always sum to the
input length and never exceed min(cap, 49), but the redistribution rule
does not guarantee a large final wave: for 100 orders with cap 49 the
recomputed stride is again 49 and the wave sizes are exactly 49/49/2. -/
theorem c2_waves_amended {α : Type} (l : List α) (cap : Nat) (hcap : 1 ≤ cap) :
    ((generateOptimizedWaves l cap).map List.length).sum = l.length ∧
    (∀ w ∈ generateOptimizedWaves l cap, w.length ≤ min cap 49) ∧
    (l.length = 100 → cap = 49 →
      (generateOptimizedWaves l cap).map List.length = [49, 49, 2]) := by
  refine ⟨?_, generateOptimizedWaves_wave_le l cap hcap, ?_⟩
  · rw [← List.length_flatten, generateOptimizedWaves_flatten]
  · intro hlen hc
    subst hc
    rw [generateOptimizedWaves_map_length_congr 49 l (List.range 100)
      (by simpa using hlen)]
    decide

/-- C2 witness: the amended statement instantiated at 100 orders with
cap 49. -/
theorem c2_waves_amended_witness :
    ((generateOptimizedWaves (List.range 100) 49).map List.length).sum
        = (List.range 100).length ∧
    (∀ w ∈ generateOptimizedWaves (List.range 100) 49, w.length ≤ min 49 49) ∧
    ((List.range 100).length = 100 → 49 = 49 →
      (generateOptimizedWaves (List.range 100) 49).map List.length = [49, 49, 2]) :=
  c2_waves_amended (List.range 100) 49 (by decide)

/-- C9 counterexample: on the empty order list the function returns a
single empty wave, so the claimed non-emptiness of every wave fails for
l = []. -/
theorem c9_counterexample :
    generateOptimizedWaves ([] : List Nat) 49 = [[]] ∧
    [] ∈ generateOptimizedWaves ([] : List Nat) 49 := ⟨by decide, by decide⟩

/-- C9 amended: for every non-empty list and every cap at least 1, the
waves concatenate back to the input (each order appears once, in order),
every wave is non-empty, and no wave exceeds min(cap, 49). -/
theorem c9_waves_shape {α : Type} (l : List α) (cap : Nat) (hcap : 1 ≤ cap)
    (hne : l ≠ []) :
    (generateOptimizedWaves l cap).flatten = l ∧
    ∀ w ∈ generateOptimizedWaves l cap, w ≠ [] ∧ w.length ≤ min cap 49 := by
  refine ⟨generateOptimizedWaves_flatten l cap, ?_⟩
  intro w hw
  exact ⟨generateOptimizedWaves_wave_ne_nil l cap hne w hw,
    generateOptimizedWaves_wave_le l cap hcap w hw⟩

/-- C9 witness: the amended statement instantiated at a four-element
list with cap 3 (waves 3 and 1). -/
theorem c9_waves_shape_witness :
    (generateOptimizedWaves [10, 20, 30, 40] 3).flatten = [10, 20, 30, 40] ∧
    ∀ w ∈ generateOptimizedWaves [10, 20, 30, 40] 3, w ≠ [] ∧ w.length ≤ min 3 49 :=
  c9_waves_shape [10, 20, 30, 40] 3 (by decide) (by decide)

/-! C6: the status-transition composite of the buy branch of
handleOrderUpdate — a live status goes through updateOrderStatus, a
terminal status (filled or cancelled) goes through removeBuyOrder, which
returns the removed snapshot. -/

/-- Terminal statuses of the data model. -/
def Status.isTerminal : Status → Bool
  | .filled => true
  | .cancelled => true
  | .pending => false
  | .live => false

/-- The store transition applied by the buy branch of handleOrderUpdate
for a status update: terminal statuses remove the order (returning the
snapshot), non-terminal statuses update it in place. -/
def transitionOrder (s : CacheState) (clientOid : String) (st : Status)
    (now : Nat) : CacheState × Option BuyOrder :=
  match st with
  | .filled => removeBuyOrder s clientOid
  | .cancelled => removeBuyOrder s clientOid
  | .pending => ((updateOrderStatus s clientOid .pending .buy now).1, none)
  | .live => ((updateOrderStatus s clientOid .live .buy now).1, none)

/-- C6: transitionOrder is a no-op on an absent (hence on an already
terminal, since terminal orders are removed) clientOid; on a present
order it applies the transition, and a terminal transition removes the
order and returns the removed snapshot; repeating the same terminal
transition is a no-op that leaves the store size unchanged. -/
theorem c6_transition_spec (s : CacheState) (clientOid : String) (st : Status)
    (now : Nat) :
    (mget s.buyCurrentOrders clientOid = none →
      transitionOrder s clientOid st now = (s, none)) ∧
    (∀ o, mget s.buyCurrentOrders clientOid = some o → st.isTerminal = true →
      (transitionOrder s clientOid st now).2 = some o ∧
      mget (transitionOrder s clientOid st now).1.buyCurrentOrders clientOid = none) ∧
    (∀ o, mget s.buyCurrentOrders clientOid = some o → st = .live →
      mget (transitionOrder s clientOid st now).1.buyCurrentOrders clientOid
        = some { o with status := .live }) ∧
    (st.isTerminal = true →
      transitionOrder (transitionOrder s clientOid st now).1 clientOid st now
        = ((transitionOrder s clientOid st now).1, none) ∧
      (transitionOrder (transitionOrder s clientOid st now).1 clientOid st now).1.buyCurrentOrders.length
        = (transitionOrder s clientOid st now).1.buyCurrentOrders.length) := by
  have hrem_none : ∀ t : CacheState, mget t.buyCurrentOrders clientOid = none →
      removeBuyOrder t clientOid = (t, none) := by
    intro t ht
    unfold removeBuyOrder
    rw [ht]
  have hrem_some : ∀ (t : CacheState) o, mget t.buyCurrentOrders clientOid = some o →
      removeBuyOrder t clientOid
        = ({ t with buyCurrentOrders := mdel t.buyCurrentOrders clientOid }, some o) := by
    intro t o ht
    unfold removeBuyOrder
    rw [ht]
  refine ⟨?_, ?_, ?_, ?_⟩
  · intro hnone
    cases st with
    | filled => exact hrem_none s hnone
    | cancelled => exact hrem_none s hnone
    | pending =>
      show ((updateOrderStatus s clientOid .pending .buy now).1, none) = (s, none)
      unfold updateOrderStatus updateBuyStatus
      rw [hnone]
    | live =>
      show ((updateOrderStatus s clientOid .live .buy now).1, none) = (s, none)
      unfold updateOrderStatus updateBuyStatus
      rw [hnone]
  · intro o hsome hterm
    cases st with
    | filled =>
      show (removeBuyOrder s clientOid).2 = some o ∧
        mget (removeBuyOrder s clientOid).1.buyCurrentOrders clientOid = none
      rw [hrem_some s o hsome]
      exact ⟨rfl, mget_mdel_self _ _⟩
    | cancelled =>
      show (removeBuyOrder s clientOid).2 = some o ∧
        mget (removeBuyOrder s clientOid).1.buyCurrentOrders clientOid = none
      rw [hrem_some s o hsome]
      exact ⟨rfl, mget_mdel_self _ _⟩
    | pending => simp [Status.isTerminal] at hterm
    | live => simp [Status.isTerminal] at hterm
  · intro o hsome hlive
    subst hlive
    show mget (updateOrderStatus s clientOid .live .buy now).1.buyCurrentOrders clientOid
      = some { o with status := .live }
    unfold updateOrderStatus updateBuyStatus
    rw [hsome]
    exact mget_mset_self _ _ _
  · intro hterm
    have hkey : mget (transitionOrder s clientOid st now).1.buyCurrentOrders clientOid
        = none := by
      cases st with
      | filled =>
        show mget (removeBuyOrder s clientOid).1.buyCurrentOrders clientOid = none
        cases hm : mget s.buyCurrentOrders clientOid with
        | none => rw [hrem_none s hm]; exact hm
        | some o => rw [hrem_some s o hm]; exact mget_mdel_self _ _
      | cancelled =>
        show mget (removeBuyOrder s clientOid).1.buyCurrentOrders clientOid = none
        cases hm : mget s.buyCurrentOrders clientOid with
        | none => rw [hrem_none s hm]; exact hm
        | some o => rw [hrem_some s o hm]; exact mget_mdel_self _ _
      | pending => simp [Status.isTerminal] at hterm
      | live => simp [Status.isTerminal] at hterm
    constructor
    · cases st with
      | filled => exact hrem_none _ hkey
      | cancelled => exact hrem_none _ hkey
      | pending => simp [Status.isTerminal] at hterm
      | live => simp [Status.isTerminal] at hterm
    · cases st with
      | filled =>
        rw [show transitionOrder (transitionOrder s clientOid .filled now).1 clientOid .filled now
          = ((transitionOrder s clientOid .filled now).1, none) from hrem_none _ hkey]
      | cancelled =>
        rw [show transitionOrder (transitionOrder s clientOid .cancelled now).1 clientOid .cancelled now
          = ((transitionOrder s clientOid .cancelled now).1, none) from hrem_none _ hkey]
      | pending => simp [Status.isTerminal] at hterm
      | live => simp [Status.isTerminal] at hterm

/-- A one-order store used by the C6 witness. -/
def c6state : CacheState := addBuyOrder initState "buy_1" 100 1 0

/-- C6 witness: on a store holding one pending order at 100, the filled
transition returns the snapshot and removes the entry, and repeating it
is a no-op with unchanged size. -/
theorem c6_transition_spec_witness :
    (transitionOrder c6state "buy_1" .filled 1).2
      = some { price := 100, size := 1, status := .pending, timestamp := 0 } ∧
    mget (transitionOrder c6state "buy_1" .filled 1).1.buyCurrentOrders "buy_1" = none ∧
    transitionOrder (transitionOrder c6state "buy_1" .filled 1).1 "buy_1" .filled 1
      = ((transitionOrder c6state "buy_1" .filled 1).1, none) := by
  have h := c6_transition_spec c6state "buy_1" .filled 1
  have h2 := h.2.1 { price := 100, size := 1, status := .pending, timestamp := 0 } rfl rfl
  exact ⟨h2.1, h2.2, (h.2.2.2 rfl).1⟩

/-! C7: addBuyOrder has no duplicate-id failure path — it silently
overwrites an existing record with the same clientOid. -/

/-- C7 counterexample: inserting the same clientOid twice does not fail;
the second insert silently overwrites the first record (price 100
becomes price 200) and the store still holds one entry. -/
theorem c7_counterexample :
    mget (addBuyOrder (addBuyOrder initState "buy_1" 100 1 0) "buy_1" 200 2 5).buyCurrentOrders
        "buy_1"
      = some { price := 200, size := 2, status := .pending, timestamp := 5 } ∧
    (addBuyOrder (addBuyOrder initState "buy_1" 100 1 0) "buy_1" 200 2 5).buyCurrentOrders.length
      = 1 := ⟨by decide, by decide⟩

/-- C7 amended: addBuyOrder always stores the new pending record under
the clientOid — overwriting any existing record with that id instead of
failing — and leaves every other key unchanged. -/
theorem c7_addBuyOrder_overwrites (s : CacheState) (clientOid : String)
    (price : Int) (size : Rat) (now : Nat) :
    mget (addBuyOrder s clientOid price size now).buyCurrentOrders clientOid
      = some { price := price, size := size, status := .pending, timestamp := now } ∧
    ∀ id2, id2 ≠ clientOid →
      mget (addBuyOrder s clientOid price size now).buyCurrentOrders id2
        = mget s.buyCurrentOrders id2 := by
  constructor
  · unfold addBuyOrder
    exact mget_mset_self _ _ _
  · intro id2 h2
    unfold addBuyOrder
    exact mget_mset_ne _ _ _ _ h2

/-- C7 witness: the amended statement at a concrete store and ids. -/
theorem c7_addBuyOrder_overwrites_witness :
    mget (addBuyOrder initState "buy_1" 100 1 0).buyCurrentOrders "buy_1"
      = some { price := 100, size := 1, status := .pending, timestamp := 0 } ∧
    mget (addBuyOrder initState "buy_1" 100 1 0).buyCurrentOrders "buy_2"
      = mget initState.buyCurrentOrders "buy_2" :=
  ⟨(c7_addBuyOrder_overwrites initState "buy_1" 100 1 0).1,
   (c7_addBuyOrder_overwrites initState "buy_1" 100 1 0).2 "buy_2" (by decide)⟩

/-! C10: cleanPendingOrders removes only expired pending entries. -/

/-- C10: cleanPendingOrders removes exactly the pending entries older
than maxAge: live orders and non-expired pending orders survive with
all fields unchanged (the entries themselves are preserved), legacy
string sells are never touched, the filled map and last price are
untouched, and the returned count is the number of removed entries. -/
theorem c10_cleanPendingOrders_spec (s : CacheState) (now : Nat) (maxAge : Int) :
    (∀ p ∈ s.buyCurrentOrders, p.2.status = .live →
      p ∈ (cleanPendingOrders s now maxAge).1.buyCurrentOrders) ∧
    (∀ p ∈ s.buyCurrentOrders, buyPendingExpired now maxAge p.2 = false →
      p ∈ (cleanPendingOrders s now maxAge).1.buyCurrentOrders) ∧
    (∀ p ∈ s.sellCurrentOrders, sellPendingExpired now maxAge p.2 = false →
      p ∈ (cleanPendingOrders s now maxAge).1.sellCurrentOrders) ∧
    (∀ p ∈ (cleanPendingOrders s now maxAge).1.buyCurrentOrders,
      p ∈ s.buyCurrentOrders ∧ buyPendingExpired now maxAge p.2 = false) ∧
    (∀ p ∈ (cleanPendingOrders s now maxAge).1.sellCurrentOrders,
      p ∈ s.sellCurrentOrders ∧ sellPendingExpired now maxAge p.2 = false) ∧
    (cleanPendingOrders s now maxAge).1.buyFilledOrders = s.buyFilledOrders ∧
    (cleanPendingOrders s now maxAge).1.lastPrice = s.lastPrice ∧
    (cleanPendingOrders s now maxAge).2
        + (cleanPendingOrders s now maxAge).1.buyCurrentOrders.length
        + (cleanPendingOrders s now maxAge).1.sellCurrentOrders.length
      = s.buyCurrentOrders.length + s.sellCurrentOrders.length := by
  refine ⟨?_, ?_, ?_, ?_, ?_, rfl, rfl, ?_⟩
  · intro p hp hlive
    apply List.mem_filter.mpr
    refine ⟨hp, ?_⟩
    unfold buyPendingExpired
    rw [hlive]
    simp
  · intro p hp hexp
    exact List.mem_filter.mpr ⟨hp, by rw [hexp]; rfl⟩
  · intro p hp hexp
    exact List.mem_filter.mpr ⟨hp, by rw [hexp]; rfl⟩
  · intro p hp
    rcases List.mem_filter.mp hp with ⟨hm, hb⟩
    exact ⟨hm, by simpa using hb⟩
  · intro p hp
    rcases List.mem_filter.mp hp with ⟨hm, hb⟩
    exact ⟨hm, by simpa using hb⟩
  · show (s.buyCurrentOrders.countP _ + s.sellCurrentOrders.countP _)
        + (s.buyCurrentOrders.filter _).length + (s.sellCurrentOrders.filter _).length
      = s.buyCurrentOrders.length + s.sellCurrentOrders.length
    rw [List.countP_eq_length_filter, List.countP_eq_length_filter]
    have hb := List.length_eq_length_filter_add
      (l := s.buyCurrentOrders) (fun p => buyPendingExpired now maxAge p.2)
    have hs := List.length_eq_length_filter_add
      (l := s.sellCurrentOrders) (fun p => sellPendingExpired now maxAge p.2)
    omega

/-- A three-order store for the C10 witness: a live order, a fresh
pending order and a stale pending order. -/
def c10state : CacheState :=
  { buyCurrentOrders :=
      [("buy_a", { price := 100, size := 1, status := .live, timestamp := 0 }),
       ("buy_b", { price := 200, size := 1, status := .pending, timestamp := 0 }),
       ("buy_c", { price := 300, size := 1, status := .pending, timestamp := 900 })]
    sellCurrentOrders := []
    buyFilledOrders := []
    lastPrice := some 10000
    lastPriceTimestamp := some 0 }

/-- C10 witness: at now = 2000 with maxAge 1500, the live order and the
fresh pending order survive and exactly one entry (the stale pending one)
is removed and counted. -/
theorem c10_cleanPendingOrders_spec_witness :
    ("buy_a", ({ price := 100, size := 1, status := .live, timestamp := 0 } : BuyOrder))
      ∈ (cleanPendingOrders c10state 2000 1500).1.buyCurrentOrders ∧
    ("buy_c", ({ price := 300, size := 1, status := .pending, timestamp := 900 } : BuyOrder))
      ∈ (cleanPendingOrders c10state 2000 1500).1.buyCurrentOrders ∧
    (cleanPendingOrders c10state 2000 1500).2
        + (cleanPendingOrders c10state 2000 1500).1.buyCurrentOrders.length
        + (cleanPendingOrders c10state 2000 1500).1.sellCurrentOrders.length
      = c10state.buyCurrentOrders.length + c10state.sellCurrentOrders.length := by
  have h := c10_cleanPendingOrders_spec c10state 2000 1500
  refine ⟨?_, ?_, h.2.2.2.2.2.2.2⟩
  · exact h.1 _ (by decide) rfl
  · exact h.2.1 _ (by decide) (by decide)

/-! C3: what enforceMaxOrders actually cancels. -/

/-- Store used by the C3 counterexample: one live buy at the off-grid
price 123, market price 10000. -/
def c3state : CacheState :=
  { buyCurrentOrders :=
      [("buy_a", { price := 123, size := 1, status := .live, timestamp := 0 })]
    sellCurrentOrders := []
    buyFilledOrders := []
    lastPrice := some 10000
    lastPriceTimestamp := some 0 }

/-- C3 counterexample: with a single active buy order (count 1, far
below maxOrders = 10) the claim demands that nothing is cancelled —
and indeed getOrdersToCancel selects nothing — but enforceMaxOrders
cancels the order anyway because its price 123 is not on the current
ladder below 10000. -/
theorem c3_counterexample :
    c3state.buyCurrentOrders.length ≤ config0.maxOrders ∧
    getOrdersToCancel c3state config0.maxOrders = [] ∧
    enforceMaxOrders config0 c3state = ["buy_a"] := ⟨by decide, by decide, by decide⟩

/-- C3 amended: with a known non-zero market price, enforceMaxOrders
cancels exactly the live or pending buy orders whose price is not one of
the maxOrders ladder levels base - i * priceStep (base the step-floor of
the market price) — independent of the active-order count — and cancels
nothing exactly when every active order sits on the current ladder.  The
count-based selection getOrdersToCancel exists in the store but is not
called by enforceMaxOrders. -/
theorem c3_enforce_amended (cfg : Config) (s : CacheState) (p0 : Int)
    (hlp : s.lastPrice = some p0) (hp0 : p0 ≠ 0) :
    (∀ clientOid, clientOid ∈ enforceMaxOrders cfg s ↔
      ∃ o, (clientOid, o) ∈ s.buyCurrentOrders ∧
        (o.status = .live ∨ o.status = .pending) ∧
        ∀ i : Nat, i < cfg.maxOrders →
          o.price ≠ (Int.fdiv p0 cfg.priceStep) * cfg.priceStep - (i : Int) * cfg.priceStep) ∧
    ((∀ p ∈ s.buyCurrentOrders, (p.2.status = .live ∨ p.2.status = .pending) →
        ∃ i : Nat, i < cfg.maxOrders ∧
          p.2.price = (Int.fdiv p0 cfg.priceStep) * cfg.priceStep - (i : Int) * cfg.priceStep) →
      (enforceMaxOrders cfg s).length = 0) := by
  have hmain : enforceMaxOrders cfg s
      = (s.buyCurrentOrders.filter (fun p =>
          (decide (p.2.status = .live) || decide (p.2.status = .pending))
            && ! (desiredPrices cfg ((Int.fdiv p0 cfg.priceStep) * cfg.priceStep)).contains
                  p.2.price)).map (·.1) := by
    have h1 : enforceMaxOrders cfg s = enforceMaxOrdersAt cfg s p0 := by
      unfold enforceMaxOrders
      rw [hlp]
      exact if_neg hp0
    rw [h1]
    rfl
  have hdes : ∀ x : Int,
      (desiredPrices cfg ((Int.fdiv p0 cfg.priceStep) * cfg.priceStep)).contains x = true ↔
      ∃ i : Nat, i < cfg.maxOrders ∧
        x = (Int.fdiv p0 cfg.priceStep) * cfg.priceStep - (i : Int) * cfg.priceStep := by
    intro x
    unfold desiredPrices
    rw [List.elem_iff]
    constructor
    · intro hx
      rcases List.mem_map.mp hx with ⟨i, hi, he⟩
      exact ⟨i, List.mem_range.mp hi, he.symm⟩
    · rintro ⟨i, hi, he⟩
      exact List.mem_map.mpr ⟨i, List.mem_range.mpr hi, he.symm⟩
  constructor
  · intro clientOid
    rw [hmain]
    constructor
    · intro hc
      rcases List.mem_map.mp hc with ⟨p, hpf, hpk⟩
      rcases List.mem_filter.mp hpf with ⟨hpm, hcond⟩
      rw [Bool.and_eq_true] at hcond
      obtain ⟨hstat, hgrid⟩ := hcond
      refine ⟨p.2, by rw [← hpk]; exact (by simpa using hpm), ?_, ?_⟩
      · simpa using hstat
      · intro i hi he
        rw [Bool.not_eq_eq_eq_not, Bool.not_true] at hgrid
        have : (desiredPrices cfg ((Int.fdiv p0 cfg.priceStep) * cfg.priceStep)).contains
            p.2.price = true := (hdes p.2.price).mpr ⟨i, hi, he⟩
        rw [this] at hgrid
        simp at hgrid
    · rintro ⟨o, hm, hstat, hoff⟩
      refine List.mem_map.mpr ⟨(clientOid, o), ?_, rfl⟩
      refine List.mem_filter.mpr ⟨hm, ?_⟩
      rw [Bool.and_eq_true]
      constructor
      · rcases hstat with h1 | h1
        · simp [h1]
        · simp [h1]
      · rw [Bool.not_eq_eq_eq_not, Bool.not_true]
        rw [← Bool.not_eq_true]
        intro hcon
        rcases (hdes o.price).mp hcon with ⟨i, hi, he⟩
        exact hoff i hi he
  · intro hall
    rw [hmain]
    rw [List.length_map, List.length_eq_zero]
    rw [List.filter_eq_nil_iff]
    intro p hp
    rw [Bool.and_eq_true, not_and]
    intro hstat
    rw [Bool.not_eq_eq_eq_not, Bool.not_true, ← Bool.not_eq_true, not_not]
    rcases hall p hp (by simpa using hstat) with ⟨i, hi, he⟩
    exact (hdes p.2.price).mpr ⟨i, hi, he⟩

/-- C3 witness: the amended characterization at the concrete store
c3state — the off-grid live order at 123 is selected for cancellation. -/
theorem c3_enforce_amended_witness :
    "buy_a" ∈ enforceMaxOrders config0 c3state ∧
    (enforceMaxOrders config0 c3state).length = 1 := by
  have h := (c3_enforce_amended config0 c3state 10000 rfl (by decide)).1 "buy_a"
  refine ⟨h.mpr ⟨{ price := 123, size := 1, status := .live, timestamp := 0 },
    by decide, Or.inl rfl, by decide⟩, by decide⟩

/-! C8: what a malformed fill event does and does not mutate. -/

theorem handleBuyOrderFilled_noop (cfg : Config) (s : CacheState)
    (pr : Option Int) (fs : Option Rat) (sellOid : String) (now : Nat)
    (hbad : pr = none ∨ pr = some 0 ∨ fs = none ∨ fs = some 0) :
    handleBuyOrderFilled cfg s pr fs sellOid now = (s, {}) := by
  rcases hbad with h | h | h | h
  · subst h
    cases fs with
    | none => simp [handleBuyOrderFilled]
    | some v => simp [handleBuyOrderFilled]
  · subst h
    cases fs with
    | none => simp [handleBuyOrderFilled]
    | some v => simp [handleBuyOrderFilled]
  · subst h
    cases pr with
    | none => simp [handleBuyOrderFilled]
    | some p => simp [handleBuyOrderFilled]
  · subst h
    cases pr with
    | none => simp [handleBuyOrderFilled]
    | some p =>
      by_cases hp : p = 0
      · simp [handleBuyOrderFilled, hp]
      · simp [handleBuyOrderFilled, hp]

/-- C8 amended: a buy fill event with missing (NaN) or zero price or
executed size produces no counters and no sell placement — the emitted
fill event is dropped by handleBuyOrderFilled — and leaves the sell map
untouched; but handleOrderUpdate has already removed the buy order and
stored a FilledBuyRecord keyed by the (possibly NaN) event price before
the event was dropped, so the event is not state-mutation free. -/
theorem c8_malformed_amended (cfg : Config) (s : CacheState) (ev : UpdateEvent)
    (sellOid : String) (now : Nat)
    (hbuy : isBuyOid ev.clientOid = true) (hst : ev.status = .filled)
    (hbad : ev.price = none ∨ ev.price = some 0 ∨ filledSizeOf ev = none ∨
      filledSizeOf ev = some 0) :
    (handleOrderUpdate cfg s ev sellOid now).2 = {} ∧
    (handleOrderUpdate cfg s ev sellOid now).1.sellCurrentOrders
      = s.sellCurrentOrders ∧
    (handleOrderUpdate cfg s ev sellOid now).1.buyCurrentOrders
      = (removeBuyOrder s ev.clientOid).1.buyCurrentOrders ∧
    (handleOrderUpdate cfg s ev sellOid now).1.buyFilledOrders
      = mset (removeBuyOrder s ev.clientOid).1.buyFilledOrders ev.price
          { orderId := ev.orderId.getD "unknown", clientOid := ev.clientOid
            price := ev.price, size := filledSizeOf ev, timestamp := now } := by
  obtain ⟨oid, st, pr, szo, nszo, ordid⟩ := ev
  simp only at hbuy hst hbad
  subst hst
  have hmain : handleOrderUpdate cfg s
      { clientOid := oid, status := .filled, price := pr, size := szo
        newSize := nszo, orderId := ordid } sellOid now
      = applyBuyFill cfg s
          { clientOid := oid, status := .filled, price := pr, size := szo
            newSize := nszo, orderId := ordid } sellOid now := by
    unfold handleOrderUpdate
    rw [if_pos hbuy]
  have happ : applyBuyFill cfg s
      { clientOid := oid, status := .filled, price := pr, size := szo
        newSize := nszo, orderId := ordid } sellOid now
      = (addFilledBuyOrder (removeBuyOrder s oid).1 pr
          { orderId := ordid.getD "unknown", clientOid := oid, price := pr
            size := filledSizeOf
              { clientOid := oid, status := .filled, price := pr, size := szo
                newSize := nszo, orderId := ordid }, timestamp := now }, {}) := by
    unfold applyBuyFill
    exact handleBuyOrderFilled_noop cfg _ pr _ sellOid now hbad
  rw [hmain, happ]
  exact ⟨rfl, removeBuyOrder_sells_eq s oid, rfl, rfl⟩

/-- Store used by the C8 counterexample: one live buy order at 10000. -/
def c8state : CacheState :=
  { buyCurrentOrders :=
      [("buy_1", { price := 10000, size := 1, status := .live, timestamp := 0 })]
    sellCurrentOrders := []
    buyFilledOrders := []
    lastPrice := some 10000
    lastPriceTimestamp := some 0 }

/-- The malformed fill event of the C8 counterexample: price and size
both missing (NaN after parseFloat). -/
def c8event : UpdateEvent :=
  { clientOid := "buy_1", status := .filled, price := none, size := none
    newSize := none, orderId := none }

/-- C8 counterexample: processing a buy fill with missing price and size
is not a pure drop — the buy order is removed from the store and a
FilledBuyRecord keyed by NaN is created (while no counter changes and no
sell placement is issued). -/
theorem c8_counterexample :
    mget c8state.buyCurrentOrders "buy_1"
      = some { price := 10000, size := 1, status := .live, timestamp := 0 } ∧
    mget (handleOrderUpdate config0 c8state c8event "sell_x" 5).1.buyCurrentOrders
        "buy_1" = none ∧
    mget (handleOrderUpdate config0 c8state c8event "sell_x" 5).1.buyFilledOrders
        none
      = some { orderId := "unknown", clientOid := "buy_1", price := none
               size := none, timestamp := 5 } ∧
    (handleOrderUpdate config0 c8state c8event "sell_x" 5).2 = {} :=
  ⟨by decide, by decide, by decide, by decide⟩

/-- C8 witness: the amended statement at the concrete malformed event. -/
theorem c8_malformed_amended_witness :
    (handleOrderUpdate config0 c8state c8event "sell_x" 5).2 = {} ∧
    (handleOrderUpdate config0 c8state c8event "sell_x" 5).1.sellCurrentOrders
      = c8state.sellCurrentOrders ∧
    (handleOrderUpdate config0 c8state c8event "sell_x" 5).1.buyCurrentOrders
      = (removeBuyOrder c8state c8event.clientOid).1.buyCurrentOrders ∧
    (handleOrderUpdate config0 c8state c8event "sell_x" 5).1.buyFilledOrders
      = mset (removeBuyOrder c8state c8event.clientOid).1.buyFilledOrders
          c8event.price
          { orderId := c8event.orderId.getD "unknown", clientOid := c8event.clientOid
            price := c8event.price, size := filledSizeOf c8event, timestamp := 5 } :=
  c8_malformed_amended config0 c8state c8event "sell_x" 5 (by decide) rfl
    (Or.inl rfl)

/-! C5: a buy fill places exactly one sell one step up for the exact
quantity and records a FilledBuyRecord; the later sell fill clears it. -/

theorem isBuyOid_eq_false_of_isSellOid {oid : String}
    (h : isSellOid oid = true) : isBuyOid oid = false := by
  unfold isSellOid at h
  unfold isBuyOid
  rw [show "sell_".data = ['s', 'e', 'l', 'l', '_'] from rfl] at h
  rw [show "buy_".data = ['b', 'u', 'y', '_'] from rfl]
  cases hd : oid.data with
  | nil => rw [hd] at h; simp [List.isPrefixOf] at h
  | cons c cs =>
    rw [hd] at h
    simp only [List.isPrefixOf] at h ⊢
    rw [Bool.and_eq_true] at h
    have hc : c = 's' := by
      have h1 := h.1
      simp at h1
      exact h1.symm
    rw [hc]
    simp

theorem mget_removeBuyOrder_self (s : CacheState) (clientOid : String) :
    mget (removeBuyOrder s clientOid).1.buyCurrentOrders clientOid = none := by
  unfold removeBuyOrder
  cases hm : mget s.buyCurrentOrders clientOid with
  | none => exact hm
  | some o => exact mget_mdel_self _ _

theorem mget_removeFilledBuyOrder_self (s : CacheState) (k : PriceVal) :
    mget (removeFilledBuyOrder s k).1.buyFilledOrders k = none := by
  unfold removeFilledBuyOrder
  cases hm : mget s.buyFilledOrders k with
  | none => exact hm
  | some d => exact mget_mdel_self _ _

theorem mget_removeSellOrder_self (s : CacheState) (k : PriceVal) :
    mget (removeSellOrder s k).1.sellCurrentOrders k = none := by
  unfold removeSellOrder
  cases hm : mget s.sellCurrentOrders k with
  | none => exact hm
  | some e => exact mget_mdel_self _ _

theorem removeSellOrder_filled_eq (s : CacheState) (k : PriceVal) :
    (removeSellOrder s k).1.buyFilledOrders = s.buyFilledOrders := by
  unfold removeSellOrder
  cases mget s.sellCurrentOrders k with
  | some e => rfl
  | none => rfl

theorem handleOrderUpdate_sell_filled (cfg : Config) (t : CacheState)
    (oid : String) (pr : Option Int) (szo nszo : Option Rat)
    (ordid : Option String) (sellOid2 : String) (now2 : Nat)
    (hb : isBuyOid oid = false) (hs : isSellOid oid = true) :
    handleOrderUpdate cfg t
      { clientOid := oid, status := .filled, price := pr, size := szo
        newSize := nszo, orderId := ordid } sellOid2 now2
      = applySellFill cfg t pr := by
  unfold handleOrderUpdate
  rw [if_neg (by simp [hb]), if_pos hs]

/-- C5: processing a well-formed buy fill at price P for size S removes
the buy order, stores a FilledBuyRecord keyed at P for size S,
increments the buy-fill counter once and issues exactly one sell
placement at P + priceStep for exactly size S (also recorded as the
pending sell entry); a subsequent sell fill at P + priceStep removes the
FilledBuyRecord at P and the sell entry. -/
theorem c5_fill_requote (cfg : Config) (s : CacheState)
    (buyOid sellOid sellOid2 fillOid : String) (P : Int) (S : Rat)
    (now now2 : Nat)
    (hbuy : isBuyOid buyOid = true) (hsell : isSellOid fillOid = true)
    (hP : ¬ P = 0) (hS : ¬ S = 0) :
    (handleOrderUpdate cfg s
        { clientOid := buyOid, status := .filled, price := some P
          size := some S, newSize := none, orderId := none } sellOid now).2
      = { buyFills := 1, ordersPlaced := 1
          sellPlacements := [(sellOid, P + cfg.priceStep, S)] } ∧
    mget (handleOrderUpdate cfg s
        { clientOid := buyOid, status := .filled, price := some P
          size := some S, newSize := none, orderId := none } sellOid now).1.buyCurrentOrders
        buyOid = none ∧
    mget (handleOrderUpdate cfg s
        { clientOid := buyOid, status := .filled, price := some P
          size := some S, newSize := none, orderId := none } sellOid now).1.buyFilledOrders
        (some P)
      = some { orderId := "unknown", clientOid := buyOid, price := some P
               size := some S, timestamp := now } ∧
    mget (handleOrderUpdate cfg s
        { clientOid := buyOid, status := .filled, price := some P
          size := some S, newSize := none, orderId := none } sellOid now).1.sellCurrentOrders
        (some (P + cfg.priceStep))
      = some (.obj { clientOid := sellOid, price := some (P + cfg.priceStep)
                     size := some S, status := .pending, timestamp := now }) ∧
    mget (handleOrderUpdate cfg
        (handleOrderUpdate cfg s
          { clientOid := buyOid, status := .filled, price := some P
            size := some S, newSize := none, orderId := none } sellOid now).1
        { clientOid := fillOid, status := .filled, price := some (P + cfg.priceStep)
          size := some S, newSize := none, orderId := none } sellOid2 now2).1.buyFilledOrders
        (some P) = none ∧
    mget (handleOrderUpdate cfg
        (handleOrderUpdate cfg s
          { clientOid := buyOid, status := .filled, price := some P
            size := some S, newSize := none, orderId := none } sellOid now).1
        { clientOid := fillOid, status := .filled, price := some (P + cfg.priceStep)
          size := some S, newSize := none, orderId := none } sellOid2 now2).1.sellCurrentOrders
        (some (P + cfg.priceStep)) = none := by
  have hr1 : handleOrderUpdate cfg s
      { clientOid := buyOid, status := .filled, price := some P
        size := some S, newSize := none, orderId := none } sellOid now
      = (addSellOrder
          (addFilledBuyOrder (removeBuyOrder s buyOid).1 (some P)
            { orderId := "unknown", clientOid := buyOid, price := some P
              size := some S, timestamp := now })
          (some (P + cfg.priceStep))
          (.obj { clientOid := sellOid, price := some (P + cfg.priceStep)
                  size := some S, status := .pending, timestamp := now }) now,
        { buyFills := 1, ordersPlaced := 1
          sellPlacements := [(sellOid, P + cfg.priceStep, S)] }) := by
    have hmain : handleOrderUpdate cfg s
        { clientOid := buyOid, status := .filled, price := some P
          size := some S, newSize := none, orderId := none } sellOid now
        = applyBuyFill cfg s
            { clientOid := buyOid, status := .filled, price := some P
              size := some S, newSize := none, orderId := none } sellOid now := by
      unfold handleOrderUpdate
      rw [if_pos hbuy]
    rw [hmain]
    have happ : applyBuyFill cfg s
        { clientOid := buyOid, status := .filled, price := some P
          size := some S, newSize := none, orderId := none } sellOid now
        = handleBuyOrderFilled cfg
            (addFilledBuyOrder (removeBuyOrder s buyOid).1 (some P)
              { orderId := "unknown", clientOid := buyOid, price := some P
                size := some S, timestamp := now })
            (some P) (some S) sellOid now := rfl
    rw [happ]
    simp only [handleBuyOrderFilled]
    rw [if_neg hP, if_neg hS]
    rfl
  have hfilled1 :
      (handleOrderUpdate cfg s
        { clientOid := buyOid, status := .filled, price := some P
          size := some S, newSize := none, orderId := none } sellOid now).1.buyFilledOrders
      = mset (removeBuyOrder s buyOid).1.buyFilledOrders (some P)
          { orderId := "unknown", clientOid := buyOid, price := some P
            size := some S, timestamp := now } := by
    rw [hr1]
    rfl
  have hsell2false : isBuyOid fillOid = false := isBuyOid_eq_false_of_isSellOid hsell
  have hr2 : ∀ t : CacheState, handleOrderUpdate cfg t
      { clientOid := fillOid, status := .filled, price := some (P + cfg.priceStep)
        size := some S, newSize := none, orderId := none } sellOid2 now2
      = applySellFill cfg t (some (P + cfg.priceStep)) := by
    intro t
    exact handleOrderUpdate_sell_filled cfg t fillOid (some (P + cfg.priceStep))
      (some S) none none sellOid2 now2 hsell2false hsell
  have harith : P + cfg.priceStep - cfg.priceStep = P := by ring
  refine ⟨by rw [hr1], ?_, ?_, ?_, ?_, ?_⟩
  · rw [hr1]
    exact mget_removeBuyOrder_self s buyOid
  · rw [hfilled1]
    exact mget_mset_self _ _ _
  · rw [hr1]
    exact mget_mset_self _ _ _
  · rw [hr2]
    unfold applySellFill
    rw [show Option.map (fun p => p - cfg.priceStep) (some (P + cfg.priceStep))
      = some (P + cfg.priceStep - cfg.priceStep) from rfl]
    rw [harith]
    rw [removeSellOrder_filled_eq]
    exact mget_removeFilledBuyOrder_self _ _
  · rw [hr2]
    unfold applySellFill
    exact mget_removeSellOrder_self _ _

/-- Store used by the C5 witness: one live buy at 10000 for 0.01. -/
def c5state : CacheState :=
  { buyCurrentOrders :=
      [("buy_1", { price := 10000, size := 1/100, status := .live, timestamp := 0 })]
    sellCurrentOrders := []
    buyFilledOrders := []
    lastPrice := some 10000
    lastPriceTimestamp := some 0 }

/-- C5 witness: the fill of the buy at 10000 for 0.01 (step 50) places
exactly one sell at 10050 for 0.01 and records the FilledBuyRecord at
10000, which the fill of that sell then removes. -/
theorem c5_fill_requote_witness :
    (handleOrderUpdate config0 c5state
        { clientOid := "buy_1", status := .filled, price := some 10000
          size := some (1/100), newSize := none, orderId := none } "sell_a" 1).2
      = { buyFills := 1, ordersPlaced := 1
          sellPlacements := [("sell_a", 10000 + config0.priceStep, 1/100)] } ∧
    mget (handleOrderUpdate config0 c5state
        { clientOid := "buy_1", status := .filled, price := some 10000
          size := some (1/100), newSize := none, orderId := none } "sell_a" 1).1.buyCurrentOrders
        "buy_1" = none ∧
    mget (handleOrderUpdate config0 c5state
        { clientOid := "buy_1", status := .filled, price := some 10000
          size := some (1/100), newSize := none, orderId := none } "sell_a" 1).1.buyFilledOrders
        (some 10000)
      = some { orderId := "unknown", clientOid := "buy_1", price := some 10000
               size := some (1/100), timestamp := 1 } ∧
    mget (handleOrderUpdate config0 c5state
        { clientOid := "buy_1", status := .filled, price := some 10000
          size := some (1/100), newSize := none, orderId := none } "sell_a" 1).1.sellCurrentOrders
        (some (10000 + config0.priceStep))
      = some (.obj { clientOid := "sell_a", price := some (10000 + config0.priceStep)
                     size := some (1/100), status := .pending, timestamp := 1 }) ∧
    mget (handleOrderUpdate config0
        (handleOrderUpdate config0 c5state
          { clientOid := "buy_1", status := .filled, price := some 10000
            size := some (1/100), newSize := none, orderId := none } "sell_a" 1).1
        { clientOid := "sell_a", status := .filled, price := some (10000 + config0.priceStep)
          size := some (1/100), newSize := none, orderId := none } "sell_b" 2).1.buyFilledOrders
        (some 10000) = none ∧
    mget (handleOrderUpdate config0
        (handleOrderUpdate config0 c5state
          { clientOid := "buy_1", status := .filled, price := some 10000
            size := some (1/100), newSize := none, orderId := none } "sell_a" 1).1
        { clientOid := "sell_a", status := .filled, price := some (10000 + config0.priceStep)
          size := some (1/100), newSize := none, orderId := none } "sell_b" 2).1.sellCurrentOrders
        (some (10000 + config0.priceStep)) = none :=
  c5_fill_requote config0 c5state "buy_1" "sell_a" "sell_b" "sell_a" 10000 (1/100)
    1 2 (by decide) (by decide) (by decide) (by simp)

/-! C4: insufficient-balance recovery. -/

/-- The view built for a buy map entry by
getActiveBuyOrdersSortedByDistance. -/
def toActiveView (p : String × BuyOrder) : ActiveBuyView :=
  { clientOid := p.1, price := p.2.price, size := p.2.size
    status := p.2.status, timestamp := p.2.timestamp }

theorem mem_active_views (s : CacheState) (target : Int) (p : String × BuyOrder)
    (hp : p ∈ s.buyCurrentOrders) (hl : p.2.status = .live) :
    toActiveView p ∈ getActiveBuyOrdersSortedByDistance s target := by
  unfold getActiveBuyOrdersSortedByDistance
  rw [mem_sortDescBy]
  exact List.mem_map.mpr ⟨p, List.mem_filter.mpr ⟨hp, by simp [hl]⟩, rfl⟩

theorem active_views_mem (s : CacheState) (target : Int) (v : ActiveBuyView)
    (hv : v ∈ getActiveBuyOrdersSortedByDistance s target) :
    ∃ p ∈ s.buyCurrentOrders, p.2.status = .live ∧ v = toActiveView p := by
  unfold getActiveBuyOrdersSortedByDistance at hv
  rw [mem_sortDescBy] at hv
  rcases List.mem_map.mp hv with ⟨p, hpf, hpe⟩
  rcases List.mem_filter.mp hpf with ⟨hpm, hpl⟩
  exact ⟨p, hpm, by simpa using hpl, hpe.symm⟩

theorem sorted_active_views (s : CacheState) (target : Int) :
    (getActiveBuyOrdersSortedByDistance s target).Pairwise
      (fun x y => viewDistance target y ≤ viewDistance target x) := by
  unfold getActiveBuyOrdersSortedByDistance
  exact pairwise_sortDescBy _ _

/-- C4: handleInsufficientBalance with the in-flight flag set is a no-op
that keeps the flag; with the flag clear it always clears the flag, uses
the 2000 ms confirmation timeout, cancels nothing when no live buy is
priced strictly below the failed price, and otherwise cancels exactly one
order — a live buy priced strictly below the failed price whose price is
minimal (farthest below) among all such orders — retrying the failed
placement exactly when the cancellation was confirmed in time. -/
theorem c4_recovery_spec (s : CacheState) (flag : Bool) (F : Int)
    (confirmed : Bool) :
    (flag = true → handleInsufficientBalance s flag F confirmed
      = { cancels := [], retried := false, finalFlag := true, timeoutMs := 2000 }) ∧
    (flag = false →
      (handleInsufficientBalance s flag F confirmed).finalFlag = false ∧
      (handleInsufficientBalance s flag F confirmed).timeoutMs = 2000 ∧
      ((∀ p ∈ s.buyCurrentOrders, p.2.status = .live → ¬ p.2.price < F) →
        handleInsufficientBalance s flag F confirmed
          = { cancels := [], retried := false, finalFlag := false, timeoutMs := 2000 }) ∧
      ((∃ p ∈ s.buyCurrentOrders, p.2.status = .live ∧ p.2.price < F) →
        ∃ p ∈ s.buyCurrentOrders,
          (handleInsufficientBalance s flag F confirmed).cancels = [p.1] ∧
          p.2.status = .live ∧ p.2.price < F ∧
          (∀ q ∈ s.buyCurrentOrders, q.2.status = .live → q.2.price < F →
            p.2.price ≤ q.2.price) ∧
          (handleInsufficientBalance s flag F confirmed).retried = confirmed)) := by
  constructor
  · intro hf
    subst hf
    unfold handleInsufficientBalance
    rfl
  · intro hf
    subst hf
    by_cases hA : (getActiveBuyOrdersSortedByDistance s F).isEmpty = true
    · have hres : handleInsufficientBalance s false F confirmed
          = { cancels := [], retried := false, finalFlag := false, timeoutMs := 2000 } := by
        unfold handleInsufficientBalance
        rw [if_neg (by simp), if_pos hA]
      rw [hres]
      refine ⟨rfl, rfl, fun _ => rfl, ?_⟩
      rintro ⟨p, hp, hl, _⟩
      exfalso
      have hv := mem_active_views s F p hp hl
      rw [List.isEmpty_iff] at hA
      rw [hA] at hv
      simp at hv
    · cases hE : (getActiveBuyOrdersSortedByDistance s F).filter
          (fun o => decide (o.price < F)) with
      | nil =>
        have hres : handleInsufficientBalance s false F confirmed
            = { cancels := [], retried := false, finalFlag := false, timeoutMs := 2000 } := by
          unfold handleInsufficientBalance
          rw [if_neg (by simp), if_neg hA, hE]
        rw [hres]
        refine ⟨rfl, rfl, fun _ => rfl, ?_⟩
        rintro ⟨p, hp, hl, hlt⟩
        exfalso
        have hv := mem_active_views s F p hp hl
        have hvf : toActiveView p ∈ (getActiveBuyOrdersSortedByDistance s F).filter
            (fun o => decide (o.price < F)) :=
          List.mem_filter.mpr ⟨hv, by simpa [toActiveView] using hlt⟩
        rw [hE] at hvf
        simp at hvf
      | cons v0 vrest =>
        have hres : handleInsufficientBalance s false F confirmed
            = { cancels := [v0.clientOid], retried := confirmed
                finalFlag := false, timeoutMs := 2000 } := by
          unfold handleInsufficientBalance
          rw [if_neg (by simp), if_neg hA, hE]
        rw [hres]
        refine ⟨rfl, rfl, ?_, ?_⟩
        · intro hnone
          exfalso
          have hv0 : v0 ∈ (getActiveBuyOrdersSortedByDistance s F).filter
              (fun o => decide (o.price < F)) := by
            rw [hE]
            exact List.mem_cons_self _ _
          rcases List.mem_filter.mp hv0 with ⟨hv0m, hv0lt⟩
          rcases active_views_mem s F v0 hv0m with ⟨p, hpm, hpl, hpe⟩
          have : ¬ p.2.price < F := hnone p hpm hpl
          rw [hpe] at hv0lt
          simp [toActiveView] at hv0lt
          exact this hv0lt
        · intro _
          have hv0 : v0 ∈ (getActiveBuyOrdersSortedByDistance s F).filter
              (fun o => decide (o.price < F)) := by
            rw [hE]
            exact List.mem_cons_self _ _
          rcases List.mem_filter.mp hv0 with ⟨hv0m, hv0lt⟩
          simp only [decide_eq_true_eq] at hv0lt
          rcases active_views_mem s F v0 hv0m with ⟨p, hpm, hpl, hpe⟩
          refine ⟨p, hpm, ?_, hpl, ?_, ?_, rfl⟩
          · rw [hpe]
            rfl
          · rw [hpe, toActiveView] at hv0lt
            exact hv0lt
          · intro q hq hql hqlt
            have hqv : toActiveView q ∈ (getActiveBuyOrdersSortedByDistance s F).filter
                (fun o => decide (o.price < F)) := by
              refine List.mem_filter.mpr ⟨mem_active_views s F q hq hql, ?_⟩
              simpa [toActiveView] using hqlt
            have hpair : (getActiveBuyOrdersSortedByDistance s F).filter
                (fun o => decide (o.price < F))
                |>.Pairwise (fun x y => viewDistance F y ≤ viewDistance F x) :=
              (sorted_active_views s F).filter _
            rw [hE] at hqv hpair
            have hdist : viewDistance F (toActiveView q) ≤ viewDistance F v0 := by
              rcases List.mem_cons.mp hqv with he | hm
              · rw [he]
              · exact (List.pairwise_cons.mp hpair).1 _ hm
            have hpF : p.2.price < F := by
              have h2 := hv0lt
              rw [hpe] at h2
              simpa [toActiveView] using h2
            have hple : p.2.price ≤ q.2.price := by
              rw [hpe] at hdist
              unfold viewDistance toActiveView at hdist
              simp only at hdist
              omega
            exact hple

/-- Store used by the C4 witness: live buys at 9700, 9750 and 9900. -/
def c4state : CacheState :=
  { buyCurrentOrders :=
      [("buy_9700", { price := 9700, size := 1, status := .live, timestamp := 0 }),
       ("buy_9750", { price := 9750, size := 1, status := .live, timestamp := 1 }),
       ("buy_9900", { price := 9900, size := 1, status := .live, timestamp := 2 })]
    sellCurrentOrders := []
    buyFilledOrders := []
    lastPrice := some 9800
    lastPriceTimestamp := some 0 }

/-- C4 witness: the recovery run for a failed buy at 9800 (flag clear,
confirmation arriving in time) cancels exactly the order at 9700 — the
farthest live buy strictly below 9800 — clears the flag, uses the 2000 ms
timeout, and retries the placement. -/
theorem c4_recovery_spec_witness :
    (handleInsufficientBalance c4state false 9800 true).finalFlag = false ∧
    (handleInsufficientBalance c4state false 9800 true).timeoutMs = 2000 ∧
    handleInsufficientBalance c4state false 9800 true
      = { cancels := ["buy_9700"], retried := true, finalFlag := false
          timeoutMs := 2000 } := by
  have h := (c4_recovery_spec c4state false 9800 true).2 rfl
  exact ⟨h.1, h.2.1, by decide⟩
